import Mathlib

/-!
Verification of the tytle-enclaves attested-fetch services.

This file gives a shallow embedding of the core of the repository:
the BN254 field-element codec (`shared/src/bn254Codec.ts`), the
length-prefixed JSON wire protocol (`shared/src/protocol.ts`), the
attestor (`shared/src/attestor.ts`), the HTTP/1.1 micro-client request
builder and chunked decoder (`shared/src/httpProxy.ts`), the generic
request handler (`shared/src/requestHandler.ts`) and the per-service
custom handlers (VIES/HMRC and SICAE), together with proofs of the
testable properties stated in the specification.

Machine integers are modelled as `Nat`/`Int` with explicit reductions;
byte strings are `List Nat` with every element `< 256`; JavaScript
strings are Lean `String`s (sequences of Unicode scalar values).
External effects (the vsock fetch, the NSM ioctl, `Date.now()`,
`crypto.randomUUID()`) are passed in as explicit parameters.
-/

namespace Enclaves

/-- The Unicode replacement character U+FFFD, which Node's UTF-8 decoding
substitutes for invalid byte sequences. -/
def replacementChar : Char := Char.ofNat 65533

/-- UTF-8 encoding of one Unicode scalar value, as performed by Node's
`Buffer.from(s, 'utf8')` for each character of a well-formed string. -/
def utf8EncodeChar (c : Char) : List Nat :=
  let n := c.toNat
  if n < 128 then [n]
  else if n < 2048 then [192 + n / 64, 128 + n % 64]
  else if n < 65536 then [224 + n / 4096, 128 + n / 64 % 64, 128 + n % 64]
  else [240 + n / 262144, 128 + n / 4096 % 64, 128 + n / 64 % 64, 128 + n % 64]

/-- UTF-8 encoding of a character sequence. -/
def utf8EncodeList : List Char → List Nat
  | [] => []
  | c :: cs => utf8EncodeChar c ++ utf8EncodeList cs

/-- Models `Buffer.from(s, 'utf8')`: the UTF-8 bytes of a string. -/
def utf8Bytes (s : String) : List Nat := utf8EncodeList s.data

/-- UTF-8 decoding worker. `fuel` bounds the number of decoded characters
(one unit per emitted character); callers pass at least the byte count, which
always suffices. Invalid sequences become U+FFFD, matching Node's
`buf.toString('utf8')`. -/
def utf8DecodeAux : Nat → List Nat → List Char
  | 0, _ => []
  | _ + 1, [] => []
  | f + 1, b :: rest =>
    if b < 128 then Char.ofNat b :: utf8DecodeAux f rest
    else if b < 194 then replacementChar :: utf8DecodeAux f rest
    else if b < 224 then
      match rest with
      | [] => [replacementChar]
      | b1 :: r1 =>
        if 128 ≤ b1 ∧ b1 < 192 then
          Char.ofNat ((b - 192) * 64 + (b1 - 128)) :: utf8DecodeAux f r1
        else replacementChar :: utf8DecodeAux f rest
    else if b < 240 then
      match rest with
      | b1 :: b2 :: r2 =>
        if (128 ≤ b1 ∧ b1 < 192) ∧ (128 ≤ b2 ∧ b2 < 192) then
          let v := (b - 224) * 4096 + (b1 - 128) * 64 + (b2 - 128)
          if 2048 ≤ v ∧ (v < 55296 ∨ 57343 < v) then Char.ofNat v :: utf8DecodeAux f r2
          else replacementChar :: utf8DecodeAux f r2
        else replacementChar :: utf8DecodeAux f rest
      | _ => [replacementChar]
    else if b < 248 then
      match rest with
      | b1 :: b2 :: b3 :: r3 =>
        if (128 ≤ b1 ∧ b1 < 192) ∧ (128 ≤ b2 ∧ b2 < 192) ∧ (128 ≤ b3 ∧ b3 < 192) then
          let v := (b - 240) * 262144 + (b1 - 128) * 4096 + (b2 - 128) * 64 + (b3 - 128)
          if 65536 ≤ v ∧ v < 1114112 then Char.ofNat v :: utf8DecodeAux f r3
          else replacementChar :: utf8DecodeAux f r3
        else replacementChar :: utf8DecodeAux f rest
      | _ => [replacementChar]
    else replacementChar :: utf8DecodeAux f rest

/-- UTF-8 decoding of a byte sequence into characters. -/
def utf8Decode (l : List Nat) : List Char := utf8DecodeAux l.length l

/-- Models `buf.toString('utf8')` all the way to a string. -/
def utf8DecodeString (l : List Nat) : String := String.mk (utf8Decode l)

/-! ### Big-endian byte and hex-digit arithmetic

`bytesBEtoNat` is the integer a byte string denotes big-endian; it models
JavaScript `BigInt('0x' + buf.toString('hex'))`.  `natToHexDigits` models the
digit sequence of `val.toString(16)`.
-/

/-- Big-endian value of a byte list. -/
def bytesBEtoNat : List Nat → Nat
  | [] => 0
  | b :: l => b * 256 ^ l.length + bytesBEtoNat l

/-- Big-endian value of a hex-digit list. -/
def digitsBEtoNat : List Nat → Nat
  | [] => 0
  | d :: l => d * 16 ^ l.length + digitsBEtoNat l

/-- Hex digits of `n`, most significant first (`[]` for 0); worker with fuel.
`fuel ≥ n` always suffices. -/
def natToHexDigitsAux : Nat → Nat → List Nat
  | 0, _ => []
  | _ + 1, 0 => []
  | f + 1, n => natToHexDigitsAux f (n / 16) ++ [n % 16]

/-- Hex digits of `n`, most significant first; the digit sequence of the
JavaScript string `n.toString(16)` (empty for `n = 0`, where JS renders "0";
the difference is absorbed by zero padding everywhere this is used). -/
def natToHexDigits (n : Nat) : List Nat := natToHexDigitsAux n n

/-- Models `String.prototype.padStart(k, '0')` on a digit list. -/
def padStartZeros (k : Nat) (l : List Nat) : List Nat :=
  List.replicate (k - l.length) 0 ++ l

/-- Models `Buffer.from(hex, 'hex')`: consecutive digit pairs become bytes
(a trailing lone digit is dropped, as Node does). -/
def hexPairsToBytes : List Nat → List Nat
  | d0 :: d1 :: r => (d0 * 16 + d1) :: hexPairsToBytes r
  | _ => []

/-- `bigintToBytes32` from `shared/src/bn254Codec.ts`:
`Buffer.from(val.toString(16).padStart(64, '0'), 'hex')`. -/
def bigintToBytes32 (val : Nat) : List Nat :=
  hexPairsToBytes (padStartZeros 64 (natToHexDigits val))

/-! ### SHA-256

A byte-level implementation of FIPS 180-4 SHA-256 over `List Nat`, modelling
Node's `crypto.createHash('sha256').update(s).digest('hex')`.  Words are `Nat`
reduced modulo `2 ^ 32`.
-/

namespace SHA256

/-- Reduce to a 32-bit word. -/
def w32 (n : Nat) : Nat := n % 4294967296

/-- Right rotation of a 32-bit word. -/
def rotr (k x : Nat) : Nat := x / 2 ^ k + x % 2 ^ k * 2 ^ (32 - k)

/-- Bitwise complement of a 32-bit word. -/
def bnot32 (x : Nat) : Nat := 4294967295 - w32 x

def ch (x y z : Nat) : Nat := (x &&& y) ^^^ (bnot32 x &&& z)

def maj (x y z : Nat) : Nat := (x &&& y) ^^^ (x &&& z) ^^^ (y &&& z)

def bigSigma0 (x : Nat) : Nat := rotr 2 x ^^^ rotr 13 x ^^^ rotr 22 x

def bigSigma1 (x : Nat) : Nat := rotr 6 x ^^^ rotr 11 x ^^^ rotr 25 x

def smallSigma0 (x : Nat) : Nat := rotr 7 x ^^^ rotr 18 x ^^^ x / 2 ^ 3

def smallSigma1 (x : Nat) : Nat := rotr 17 x ^^^ rotr 19 x ^^^ x / 2 ^ 10

/-- The 64 SHA-256 round constants. -/
def K : List Nat :=
  [1116352408, 1899447441, 3049323471, 3921009573, 961987163, 1508970993,
   2453635748, 2870763221, 3624381080, 310598401, 607225278, 1426881987,
   1925078388, 2162078206, 2614888103, 3248222580, 3835390401, 4022224774,
   264347078, 604807628, 770255983, 1249150122, 1555081692, 1996064986,
   2554220882, 2821834349, 2952996808, 3210313671, 3336571891, 3584528711,
   113926993, 338241895, 666307205, 773529912, 1294757372, 1396182291,
   1695183700, 1986661051, 2177026350, 2456956037, 2730485921, 2820302411,
   3259730800, 3345764771, 3516065817, 3600352804, 4094571909, 275423344,
   430227734, 506948616, 659060556, 883997877, 958139571, 1322822218,
   1537002063, 1747873779, 1955562222, 2024104815, 2227730452, 2361852424,
   2428436474, 2756734187, 3204031479, 3329325298]

/-- The SHA-256 initial hash value. -/
def initH : List Nat :=
  [1779033703, 3144134277, 1013904242, 2773480762, 1359893119, 2600822924,
   528734635, 1541459225]

/-- Big-endian 8-byte encoding of the bit length. -/
def lenBytes8 (n : Nat) : List Nat :=
  [n / 72057594037927936 % 256, n / 281474976710656 % 256,
   n / 1099511627776 % 256, n / 4294967296 % 256,
   n / 16777216 % 256, n / 65536 % 256, n / 256 % 256, n % 256]

/-- FIPS 180-4 padding: append `0x80`, zeros to 56 mod 64, then the 64-bit
big-endian bit length. -/
def padMessage (msg : List Nat) : List Nat :=
  msg ++ 128 :: (List.replicate ((119 - msg.length % 64) % 64) 0 ++ lenBytes8 (8 * msg.length))

/-- Combine big-endian 4-byte groups into 32-bit words. -/
def toWords : List Nat → List Nat
  | a :: b :: c :: d :: r => (((a * 256 + b) * 256 + c) * 256 + d) :: toWords r
  | _ => []

/-- Split into 64-byte blocks; worker with fuel (`fuel ≥ length` suffices). -/
def chunks64Aux : Nat → List Nat → List (List Nat)
  | 0, _ => []
  | _ + 1, [] => []
  | f + 1, l => l.take 64 :: chunks64Aux f (l.drop 64)

def chunks64 (l : List Nat) : List (List Nat) := chunks64Aux l.length l

/-- The next message-schedule word from the last 16 already computed. -/
def nextScheduleWord (w : List Nat) : Nat :=
  let n := w.length
  w32 (smallSigma1 (w.getD (n - 2) 0) + w.getD (n - 7) 0 +
    smallSigma0 (w.getD (n - 15) 0) + w.getD (n - 16) 0)

/-- Extend the 16 block words by `k` schedule words. -/
def extendSchedule (w : List Nat) : Nat → List Nat
  | 0 => w
  | k + 1 => extendSchedule (w ++ [nextScheduleWord w]) k

/-- One compression round on the 8-word working state. -/
def roundStep (st : List Nat) (kw : Nat × Nat) : List Nat :=
  match st with
  | [a, b, c, d, e, f, g, h] =>
    let t1 := w32 (h + bigSigma1 e + ch e f g + kw.1 + kw.2)
    let t2 := w32 (bigSigma0 a + maj a b c)
    [w32 (t1 + t2), a, b, c, w32 (d + t1), e, f, g]
  | _ => st

/-- Compress one 64-byte block into the running hash value. -/
def compressBlock (H : List Nat) (block : List Nat) : List Nat :=
  let ws := extendSchedule (toWords block) 48
  let st := (K.zip ws).foldl roundStep H
  List.zipWith (fun a b => w32 (a + b)) H st

/-- Big-endian bytes of a 32-bit word. -/
def wordToBytes (n : Nat) : List Nat :=
  [n / 16777216 % 256, n / 65536 % 256, n / 256 % 256, n % 256]

def wordsToBytes : List Nat → List Nat
  | [] => []
  | w :: ws => wordToBytes w ++ wordsToBytes ws

/-- SHA-256 digest (32 bytes) of a byte message. -/
def sha256Bytes (msg : List Nat) : List Nat :=
  wordsToBytes ((chunks64 (padMessage msg)).foldl compressBlock initH)

end SHA256

/-- Lowercase hexadecimal digit character. -/
def hexDigitChar (d : Nat) : Char :=
  Char.ofNat (if d < 10 then 48 + d else 87 + d)

def bytesToHexChars : List Nat → List Char
  | [] => []
  | b :: r => hexDigitChar (b / 16) :: hexDigitChar (b % 16) :: bytesToHexChars r

/-- Models `buf.toString('hex')`: lowercase hex rendering of a byte string. -/
def bytesToHexString (l : List Nat) : String := String.mk (bytesToHexChars l)

/-- Models `crypto.createHash('sha256').update(s).digest('hex')`. -/
def sha256Hex (s : String) : String :=
  bytesToHexString (SHA256.sha256Bytes (utf8Bytes s))

/-! ### JSON values, `JSON.stringify` and `JSON.parse`

`Json` models a JSON-serialisable JavaScript value.  Numbers are modelled as
integers (`Int`): every number the repository serialises is an integral
JavaScript number (statuses, counts, timestamps), and float formatting is out
of scope of this embedding.  `obj` member lists model the insertion-ordered
enumeration of a JavaScript object's string-keyed properties.

`jsonStringify` models the standard deterministic serialiser
`JSON.stringify` (insertion order, no inserted whitespace, JSON string
escaping).  `jsonParse` models `JSON.parse` (whitespace-tolerant, strict
escapes, last structural character wins); its fuel argument bounds parse-tree
nodes and `input length + 1` always suffices for values produced by
`jsonStringify`.
-/

inductive Json where
  | null : Json
  | bool (b : Bool) : Json
  | num (n : Int) : Json
  | str (s : String) : Json
  | arr (items : List Json) : Json
  | obj (members : List (String × Json)) : Json

/-- Decimal digits of `n`, most significant first (`[]` for 0); fuel worker. -/
def natToDecDigitsAux : Nat → Nat → List Nat
  | 0, _ => []
  | _ + 1, 0 => []
  | f + 1, n => natToDecDigitsAux f (n / 10) ++ [n % 10]

def natToDecDigits (n : Nat) : List Nat := natToDecDigitsAux n n

/-- Value of decimal digits, most significant first. -/
def decDigitsVal (l : List Nat) : Nat := l.foldl (fun a d => a * 10 + d) 0

/-- Decimal digit character. -/
def decDigitChar (d : Nat) : Char := Char.ofNat (48 + d)

/-- Models JavaScript `String(n)` for a non-negative integral number. -/
def natDecChars (n : Nat) : List Char :=
  if n = 0 then [decDigitChar 0] else (natToDecDigits n).map decDigitChar

/-- Models JavaScript `String(i)` for an integral number. -/
def intDecChars (i : Int) : List Char :=
  if i < 0 then Char.ofNat 45 :: natDecChars i.natAbs else natDecChars i.natAbs

/-- Models the decimal rendering of a non-negative integral number as a
string (template-literal interpolation of a JS number). -/
def decimalString (n : Nat) : String := String.mk (natDecChars n)

/-- JSON string escaping of one character, as `JSON.stringify` does. -/
def escapeCharChars (c : Char) : List Char :=
  if c = Char.ofNat 34 then [Char.ofNat 92, Char.ofNat 34]
  else if c = Char.ofNat 92 then [Char.ofNat 92, Char.ofNat 92]
  else if c = Char.ofNat 8 then [Char.ofNat 92, 'b']
  else if c = Char.ofNat 12 then [Char.ofNat 92, 'f']
  else if c = Char.ofNat 10 then [Char.ofNat 92, 'n']
  else if c = Char.ofNat 13 then [Char.ofNat 92, 'r']
  else if c = Char.ofNat 9 then [Char.ofNat 92, 't']
  else if c.toNat < 32 then
    [Char.ofNat 92, 'u', '0', '0', hexDigitChar (c.toNat / 16), hexDigitChar (c.toNat % 16)]
  else [c]

def stringifyStringBody : List Char → List Char
  | [] => []
  | c :: cs => escapeCharChars c ++ stringifyStringBody cs

/-- The serialisation of a JSON string literal, quotes included. -/
def stringifyStringChars (s : String) : List Char :=
  Char.ofNat 34 :: (stringifyStringBody s.data ++ [Char.ofNat 34])

mutual

/-- `JSON.stringify`, producing a character list. -/
def stringifyChars : Json → List Char
  | .null => 'n' :: 'u' :: 'l' :: 'l' :: []
  | .bool true => 't' :: 'r' :: 'u' :: 'e' :: []
  | .bool false => 'f' :: 'a' :: 'l' :: 's' :: 'e' :: []
  | .num i => intDecChars i
  | .str s => stringifyStringChars s
  | .arr items => '[' :: (stringifyArr items ++ [']'])
  | .obj ms => Char.ofNat 123 :: (stringifyObj ms ++ [Char.ofNat 125])

def stringifyArr : List Json → List Char
  | [] => []
  | [x] => stringifyChars x
  | x :: xs => stringifyChars x ++ ',' :: stringifyArr xs

def stringifyObj : List (String × Json) → List Char
  | [] => []
  | [(k, v)] => stringifyStringChars k ++ ':' :: stringifyChars v
  | (k, v) :: xs => stringifyStringChars k ++ ':' :: stringifyChars v ++ ',' :: stringifyObj xs

end

/-- Models `JSON.stringify(x)` as a string. -/
def jsonStringify (x : Json) : String := String.mk (stringifyChars x)

mutual

/-- Node count of a JSON value: a fuel bound for the parser. -/
def jsonSize : Json → Nat
  | .null => 1
  | .bool _ => 1
  | .num _ => 1
  | .str _ => 1
  | .arr items => 1 + jsonSizeList items
  | .obj ms => 1 + jsonSizeObj ms

def jsonSizeList : List Json → Nat
  | [] => 0
  | x :: xs => 1 + jsonSize x + jsonSizeList xs

def jsonSizeObj : List (String × Json) → Nat
  | [] => 0
  | (_, v) :: xs => 1 + jsonSize v + jsonSizeObj xs

end

/-- JSON whitespace. -/
def isJsonWs (c : Char) : Bool :=
  c = ' ' || c = Char.ofNat 9 || c = Char.ofNat 10 || c = Char.ofNat 13

def skipWs : List Char → List Char
  | [] => []
  | c :: cs => if isJsonWs c then skipWs cs else c :: cs

def isDigitChar (c : Char) : Bool := 48 ≤ c.toNat && c.toNat ≤ 57

/-- Longest run of decimal digits at the head of the input. -/
def parseDigitsRun : List Char → List Nat × List Char
  | [] => ([], [])
  | c :: cs =>
    if isDigitChar c then
      let p := parseDigitsRun cs
      ((c.toNat - 48) :: p.1, p.2)
    else ([], c :: cs)

/-- Value of one hexadecimal digit character (either case), if any. -/
def hexCharVal (c : Char) : Option Nat :=
  if 48 ≤ c.toNat ∧ c.toNat ≤ 57 then some (c.toNat - 48)
  else if 97 ≤ c.toNat ∧ c.toNat ≤ 102 then some (c.toNat - 87)
  else if 65 ≤ c.toNat ∧ c.toNat ≤ 70 then some (c.toNat - 55)
  else none

/-- Value of four hexadecimal digit characters, if all are hex digits. -/
def hex4val (h1 h2 h3 h4 : Char) : Option Nat :=
  match hexCharVal h1, hexCharVal h2, hexCharVal h3, hexCharVal h4 with
  | some d1, some d2, some d3, some d4 => some (((d1 * 16 + d2) * 16 + d3) * 16 + d4)
  | _, _, _, _ => none

/-- Decode one JSON string escape (the backslash already consumed): the decoded
character and the remaining input.  Surrogate escape pairs combine into one
scalar value.  An unpaired surrogate escape is rejected — JavaScript would
produce a string containing a lone surrogate, which a sequence of Lean `Char`s
(Unicode scalar values) cannot represent; `JSON.stringify` output never
contains one. -/
def parseEscape : List Char → Option (Char × List Char)
  | [] => none
  | e :: cs2 =>
    if e = Char.ofNat 34 then some (Char.ofNat 34, cs2)
    else if e = Char.ofNat 92 then some (Char.ofNat 92, cs2)
    else if e = '/' then some ('/', cs2)
    else if e = 'b' then some (Char.ofNat 8, cs2)
    else if e = 'f' then some (Char.ofNat 12, cs2)
    else if e = 'n' then some (Char.ofNat 10, cs2)
    else if e = 'r' then some (Char.ofNat 13, cs2)
    else if e = 't' then some (Char.ofNat 9, cs2)
    else if e = 'u' then
      match cs2 with
      | h1 :: h2 :: h3 :: h4 :: cs3 =>
        (hex4val h1 h2 h3 h4).bind fun v =>
          if 55296 ≤ v ∧ v < 56320 then
            match cs3 with
            | g0 :: gu :: g1 :: g2 :: g3 :: g4 :: cs4 =>
              if g0 = Char.ofNat 92 ∧ gu = 'u' then
                (hex4val g1 g2 g3 g4).bind fun w =>
                  if 56320 ≤ w ∧ w < 57344 then
                    some (Char.ofNat (65536 + (v - 55296) * 1024 + (w - 56320)), cs4)
                  else none
              else none
            | _ => none
          else if 56320 ≤ v ∧ v < 57344 then none
          else some (Char.ofNat v, cs3)
      | _ => none
    else none

/-- Parse the body of a JSON string literal (opening quote already consumed);
returns the decoded characters and the input after the closing quote.  Fuel
worker: one unit per decoded character; `input length` always suffices. -/
def parseStringBodyAux : Nat → List Char → Option (List Char × List Char)
  | 0, _ => none
  | _ + 1, [] => none
  | f + 1, c :: cs =>
    if c = Char.ofNat 34 then some ([], cs)
    else if c = Char.ofNat 92 then
      match parseEscape cs with
      | some (d, cs3) => (parseStringBodyAux f cs3).map fun p => (d :: p.1, p.2)
      | none => none
    else if c.toNat < 32 then none
    else (parseStringBodyAux f cs).map fun p => (c :: p.1, p.2)

def parseStringBody (cs : List Char) : Option (List Char × List Char) :=
  parseStringBodyAux cs.length cs

/-- A number token must not be followed by more digits, a fraction or an
exponent for this integer-only parser to accept it in place. -/
def numBoundary : List Char → Bool
  | [] => true
  | c :: _ => !(isDigitChar c || c = '.' || c = 'e' || c = 'E')

def numLeadOk : List Nat → Bool
  | [] => false
  | [_] => true
  | d :: _ => decide (d ≠ 0)

/-- Parse a JSON number (integer grammar; a fraction or exponent is rejected —
the model restriction to integral numbers). -/
def parseNumberFrom (cs : List Char) : Option (Json × List Char) :=
  match cs with
  | c :: cs1 =>
    if c = Char.ofNat 45 then
      let p := parseDigitsRun cs1
      if numLeadOk p.1 && numBoundary p.2 then
        some (.num (-(Int.ofNat (decDigitsVal p.1))), p.2)
      else none
    else
      let p := parseDigitsRun (c :: cs1)
      if numLeadOk p.1 && numBoundary p.2 then
        some (.num (Int.ofNat (decDigitsVal p.1)), p.2)
      else none
  | [] => none

mutual

/-- JSON value parser; fuel-bounded (`jsonSize` of the parsed value suffices). -/
def parseValueAux : Nat → List Char → Option (Json × List Char)
  | 0, _ => none
  | f + 1, cs0 =>
    match skipWs cs0 with
    | [] => none
    | c :: rest =>
      if c = 'n' then
        match rest with
        | c1 :: c2 :: c3 :: r =>
          if c1 = 'u' ∧ c2 = 'l' ∧ c3 = 'l' then some (.null, r) else none
        | _ => none
      else if c = 't' then
        match rest with
        | c1 :: c2 :: c3 :: r =>
          if c1 = 'r' ∧ c2 = 'u' ∧ c3 = 'e' then some (.bool true, r) else none
        | _ => none
      else if c = 'f' then
        match rest with
        | c1 :: c2 :: c3 :: c4 :: r =>
          if c1 = 'a' ∧ c2 = 'l' ∧ c3 = 's' ∧ c4 = 'e' then some (.bool false, r) else none
        | _ => none
      else if c = Char.ofNat 34 then
        match parseStringBody rest with
        | some (content, r) => some (.str (String.mk content), r)
        | none => none
      else if c = '[' then
        match skipWs rest with
        | [] => none
        | c1 :: r1 =>
          if c1 = ']' then some (.arr [], r1)
          else
            match parseArrayItems f (c1 :: r1) with
            | some (items, r) => some (.arr items, r)
            | none => none
      else if c = Char.ofNat 123 then
        match skipWs rest with
        | [] => none
        | c2 :: r =>
          if c2 = Char.ofNat 125 then some (.obj [], r)
          else
            match parseObjMembers f (c2 :: r) with
            | some (ms, r2) => some (.obj ms, r2)
            | none => none
      else if c = Char.ofNat 45 || isDigitChar c then parseNumberFrom (c :: rest)
      else none

/-- One-or-more comma-separated array items up to the closing bracket. -/
def parseArrayItems : Nat → List Char → Option (List Json × List Char)
  | 0, _ => none
  | f + 1, cs =>
    match parseValueAux f cs with
    | none => none
    | some (v, r1) =>
      match skipWs r1 with
      | [] => none
      | s :: r2 =>
        if s = ',' then (parseArrayItems f r2).map fun p => (v :: p.1, p.2)
        else if s = ']' then some ([v], r2)
        else none

/-- One-or-more object members up to the closing brace. -/
def parseObjMembers : Nat → List Char → Option (List (String × Json) × List Char)
  | 0, _ => none
  | f + 1, cs =>
    match skipWs cs with
    | [] => none
    | q :: r0 =>
      if q = Char.ofNat 34 then
        match parseStringBody r0 with
        | none => none
        | some (key, r1) =>
          match skipWs r1 with
          | [] => none
          | cc :: r2 =>
            if cc = ':' then
              match parseValueAux f r2 with
              | none => none
              | some (v, r3) =>
                match skipWs r3 with
                | [] => none
                | c4 :: r4 =>
                  if c4 = ',' then
                    (parseObjMembers f r4).map fun p => ((String.mk key, v) :: p.1, p.2)
                  else if c4 = Char.ofNat 125 then some ([(String.mk key, v)], r4)
                  else none
            else none
      else none

end

/-- Models `JSON.parse(s)`: parse one value, allow trailing whitespace,
reject anything else. -/
def jsonParse (s : String) : Option Json :=
  match parseValueAux (s.data.length + 1) s.data with
  | some (v, rest) => if skipWs rest = [] then some v else none
  | none => none

/-! ### Wire protocol (`shared/src/protocol.ts`)

The vsock byte stream is modelled as a `List Nat` of bytes.  `writeMessage`
produces the frame its write loop sends (or the thrown error, in which case
no byte reaches the stream); `readMessage` consumes a prefix of the stream
and returns the parsed message and the remainder.
-/

def MAX_MESSAGE_SIZE : Nat := 16 * 1024 * 1024

/-- Models `Buffer.writeUInt32BE n` into a 4-byte buffer. -/
def writeUInt32BE (n : Nat) : List Nat :=
  [n / 16777216 % 256, n / 65536 % 256, n / 256 % 256, n % 256]

/-- `writeMessage` from `protocol.ts`: serialise, check the 16 MiB cap
(throwing before anything is written), then write the 4-byte big-endian
length header and the payload, looping over short writes until the whole
frame is on the stream.  The result is the byte sequence written. -/
def writeMessage (data : Json) : Except String (List Nat) :=
  let payload := utf8Bytes (jsonStringify data)
  if payload.length > MAX_MESSAGE_SIZE then
    .error ("Message too large: " ++ decimalString payload.length ++ " bytes")
  else
    .ok (writeUInt32BE payload.length ++ payload)

/-- `readExact` from `protocol.ts`: read exactly `size` bytes, looping over
short reads (at most 64 KiB each); a read returning zero bytes (peer EOF)
throws.  Net effect on the stream model: the first `size` bytes and the
remainder, or the connection-closed error when the stream is too short. -/
def readExact (stream : List Nat) (size : Nat) : Except String (List Nat × List Nat) :=
  if stream.length < size then
    .error ("Connection closed: expected " ++ decimalString size ++ " bytes")
  else .ok (stream.take size, stream.drop size)

/-- `readMessage` from `protocol.ts`: 4-byte big-endian length header, the
`EmptyMessage` and `MessageTooLarge` checks, exactly `length` payload bytes,
then `JSON.parse` of the UTF-8 decoded payload. -/
def readMessage (stream : List Nat) : Except String (Json × List Nat) :=
  match readExact stream 4 with
  | .error e => .error e
  | .ok (header, rest1) =>
    let length := bytesBEtoNat header
    if length = 0 then .error "Empty message received"
    else if length > MAX_MESSAGE_SIZE then
      .error ("Message too large: " ++ decimalString length ++ " bytes")
    else
      match readExact rest1 length with
      | .error e => .error e
      | .ok (payload, rest2) =>
        match jsonParse (utf8DecodeString payload) with
        | some v => .ok (v, rest2)
        | none => .error "JSON parse error"

/-! ### BN254 field-element codec (`shared/src/bn254Codec.ts`) -/

def BN254_MODULUS : Nat :=
  21888242871839275222246405745257275088548364400416034343698204186575808495617

inductive FieldEncoding where
  | shortString : FieldEncoding
  | sha256 : FieldEncoding
  | uint : FieldEncoding
deriving DecidableEq

structure FieldDef where
  name : String
  encoding : FieldEncoding

def SICAE_SCHEMA : List FieldDef :=
  [⟨"nif", .shortString⟩, ⟨"name", .sha256⟩, ⟨"cae1Code", .shortString⟩,
   ⟨"cae1Desc", .sha256⟩, ⟨"cae2Code", .shortString⟩, ⟨"cae2Desc", .sha256⟩]

def VIES_SCHEMA : List FieldDef :=
  [⟨"countryCode", .shortString⟩, ⟨"vatNumber", .shortString⟩, ⟨"valid", .uint⟩,
   ⟨"name", .sha256⟩, ⟨"address", .sha256⟩]

/-- A JavaScript value admissible in a codec `values` record
(`string | number | bigint | null`; numbers are modelled as integers — every
number the repository feeds the codec is integral). -/
inductive JsValue where
  | nullV : JsValue
  | str (s : String) : JsValue
  | num (n : Int) : JsValue
  | bigint (n : Int) : JsValue
deriving DecidableEq

/-- JavaScript `String(value)` on a codec value. -/
def jsToString : JsValue → String
  | .nullV => "null"
  | .str s => s
  | .num n => String.mk (intDecChars n)
  | .bigint n => String.mk (intDecChars n)

/-- JavaScript whitespace trimming, on the ASCII range that `BigInt(string)`
parsing needs. -/
def jsTrimChars (l : List Char) : List Char :=
  ((l.dropWhile fun c => isJsonWs c).reverse.dropWhile fun c => isJsonWs c).reverse

/-- Models `BigInt(string)` on decimal input: trimmed empty string is `0n`,
otherwise an optional sign and decimal digits; anything else throws.
(The `0x`/`0o`/`0b` unsigned forms JavaScript also accepts are not modelled;
the repository only feeds this decimal strings.) -/
def jsBigIntOfString (s : String) : Except String Int :=
  match jsTrimChars s.data with
  | [] => .ok 0
  | c :: cs =>
    let body := if c = Char.ofNat 45 ∨ c = '+' then cs else c :: cs
    if body ≠ [] ∧ body.all isDigitChar then
      let p := parseDigitsRun body
      if c = Char.ofNat 45 then .ok (-(Int.ofNat (decDigitsVal p.1)))
      else .ok (Int.ofNat (decDigitsVal p.1))
    else .error ("Cannot convert " ++ s ++ " to a BigInt")

/-- `shortStringToFe`: at most 31 UTF-8 bytes, interpreted as a big-endian
integer (`BigInt('0x' + bytes.toString('hex'))`), left-padded to 32 bytes.
(On the empty string JavaScript would throw on `BigInt('0x')`; unreachable —
`encodeField` maps the empty string to the zero sentinel first.) -/
def shortStringToFe (s : String) : Except String (List Nat) :=
  let bytes := utf8Bytes s
  if bytes.length > 31 then
    .error ("shortString exceeds 31 bytes: " ++ s)
  else .ok (bigintToBytes32 (bytesBEtoNat bytes))

/-- `sha256ToFe`: the SHA-256 digest of the UTF-8 string, read as a 256-bit
big-endian integer (`BigInt('0x' + hexDigest)`), reduced mod `BN254_MODULUS`. -/
def sha256ToFe (s : String) : List Nat :=
  bigintToBytes32 (bytesBEtoNat (SHA256.sha256Bytes (utf8Bytes s)) % BN254_MODULUS)

/-- `uintToFe`: range-check `0 ≤ v < BN254_MODULUS` and encode big-endian. -/
def uintToFe (n : Int) : Except String (List Nat) :=
  if n < 0 ∨ BN254_MODULUS ≤ n then
    .error "uint out of BN254 range"
  else .ok (bigintToBytes32 n.natAbs)

/-- `encodeField`: `null`, `undefined` and the empty string become the
32-zero-byte sentinel; otherwise dispatch on the field encoding.  (The inner
`nullV` arm of the `uint` branch is unreachable — nulls are caught by the
sentinel guard — and mirrors the guard's result to keep the function total.) -/
def encodeField (d : FieldDef) (value : JsValue) : Except String (List Nat) :=
  if value = JsValue.nullV ∨ value = JsValue.str "" then .ok (List.replicate 32 0)
  else
    match d.encoding with
    | .shortString => shortStringToFe (jsToString value)
    | .sha256 => .ok (sha256ToFe (jsToString value))
    | .uint =>
      match value with
      | .str s =>
        match jsBigIntOfString s with
        | .ok n => uintToFe n
        | .error e => .error e
      | .num n => uintToFe n
      | .bigint n => uintToFe n
      | .nullV => .ok (List.replicate 32 0)

/-- `values[def.name] ?? null` on the record, modelled as an assoc list with
JavaScript-object-unique keys. -/
def lookupValue (values : List (String × JsValue)) (name : String) : JsValue :=
  (values.lookup name).getD .nullV

/-- `encodeFieldElements`: concatenate the per-field encodings in schema
order; the first thrown error aborts the encoding. -/
def encodeFieldElements (schema : List FieldDef)
    (values : List (String × JsValue)) : Except String (List Nat) :=
  match schema with
  | [] => .ok []
  | d :: rest =>
    match encodeField d (lookupValue values d.name) with
    | .error e => .error e
    | .ok b =>
      match encodeFieldElements rest values with
      | .error e => .error e
      | .ok bs => .ok (b ++ bs)

/-- `schemaByteLength`. -/
def schemaByteLength (schema : List FieldDef) : Nat := schema.length * 32

/-! ### The decoder side (`decodeFieldElements` and helpers from the
repository's test suite, mirroring the off-repository consumer) -/

/-- `recoverShortString`: strip leading zero bytes, decode the rest as
UTF-8. -/
def recoverShortString (bytes32 : List Nat) : String :=
  utf8DecodeString (bytes32.dropWhile fun b => b == 0)

/-- `readUint`: the slot as a big-endian integer. -/
def readUint (bytes32 : List Nat) : Nat := bytesBEtoNat bytes32

/-- `isZero`: every byte of the slot is zero. -/
def isZero (bytes32 : List Nat) : Bool := bytes32.all fun b => b == 0

structure DecodedField where
  value : String
  isNull : Bool
  hex : String

/-- Per-slot walk of `decodeFieldElements` (the indexed loop over 32-byte
subarrays, expressed by peeling 32 bytes per field). -/
def decodeFieldsGo : List FieldDef → List Nat → List (String × DecodedField)
  | [], _ => []
  | d :: rest, raw =>
    let bytes32 := raw.take 32
    let hex := bytesToHexString bytes32
    let fieldIsNull := isZero bytes32
    let value :=
      if fieldIsNull then ""
      else
        match d.encoding with
        | .shortString => recoverShortString bytes32
        | .sha256 => hex
        | .uint => String.mk (natDecChars (readUint bytes32))
    (d.name, ⟨value, fieldIsNull, hex⟩) :: decodeFieldsGo rest (raw.drop 32)

/-- `decodeFieldElements`: length check, then one decoded field per schema
entry (the result record is modelled as the name-keyed list in schema
order). -/
def decodeFieldElements (schema : List FieldDef) (raw : List Nat) :
    Except String (List (String × DecodedField)) :=
  if raw.length ≠ schema.length * 32 then
    .error ("Expected " ++ decimalString (schema.length * 32) ++ " bytes for "
      ++ decimalString schema.length ++ " fields, got " ++ decimalString raw.length)
  else .ok (decodeFieldsGo schema raw)

/-! ### Attestor (`shared/src/attestor.ts`)

`Date.now()` (as the already-floored second count), `crypto.randomUUID()` and
the NSM ioctl round trip (`requestNsmAttestation`) are external effects,
passed in as explicit parameters.
-/

structure Pcrs where
  pcr0 : String
  pcr1 : String
  pcr2 : String

structure AttestationDocument where
  attestationId : String
  responseHash : String
  requestHash : String
  apiEndpoint : String
  apiMethod : String
  timestamp : Nat
  nsmDocument : String
  pcrs : Pcrs
  nonce : String

/-- What `requestNsmAttestation` returns: the base64 COSE_Sign1 document and
the extracted (possibly empty-string) PCR values. -/
structure NsmResult where
  nsmDocument : String
  pcrs : Pcrs

/-- `JSON.stringify` of a `Record<string, string>` as received. -/
def jsonStringifyStrMap (headers : List (String × String)) : String :=
  jsonStringify (Json.obj (headers.map fun kv => (kv.1, Json.str kv.2)))

/-- `attest` from `attestor.ts`.  `timestamp` is `Math.floor(Date.now() / 1000)`
and `uuid` is `crypto.randomUUID()`; `nsm` is the NSM attestation call, which
can throw. -/
def attest (nsm : String → Except String NsmResult) (timestamp : Nat) (uuid : String)
    (apiEndpoint apiMethod rawBody url : String)
    (requestHeaders : List (String × String)) : Except String AttestationDocument :=
  let attestationId := "enc-" ++ uuid
  let responseHash := sha256Hex rawBody
  let requestHash :=
    sha256Hex (url ++ "|" ++ apiMethod ++ "|" ++ jsonStringifyStrMap requestHeaders)
  let nonce := sha256Hex (responseHash ++ apiEndpoint ++ decimalString timestamp)
  match nsm nonce with
  | .error e => .error e
  | .ok r =>
    .ok ⟨attestationId, responseHash, requestHash, apiEndpoint, apiMethod, timestamp,
      r.nsmDocument, r.pcrs, nonce⟩

/-! ### HTTP/1.1 request building and chunked decoding (`shared/src/httpProxy.ts`) -/

/-- JavaScript object-literal update semantics for
`\x7b ...headers, Key: value \x7d`: an existing (case-sensitive) key keeps its
position and takes the new value; a new key is appended. -/
def jsSetKey (obj : List (String × String)) (key value : String) :
    List (String × String) :=
  if (obj.lookup key).isSome then
    obj.map fun kv => if kv.1 = key then (kv.1, value) else kv
  else obj ++ [(key, value)]

/-- The `reqHeaders` object both `proxyFetch` and `proxyFetchPlain` build:
the caller's headers spread first, then `Host` and `Connection` assigned. -/
def buildReqHeaders (hostname : String) (headers : List (String × String)) :
    List (String × String) :=
  jsSetKey (jsSetKey headers "Host" hostname) "Connection" "close"

/-- The HTTP/1.1 request text built identically inside `proxyFetch` (then sent
over TLS) and `proxyFetchPlain` (sent raw): request line, the overlaid headers
in object order, `Content-Length` when a (truthy) body is present, a blank
line, then the body. -/
def buildHttpRequest (method path hostname : String)
    (headers : List (String × String)) (body : Option String) : String :=
  let reqHeaders := buildReqHeaders hostname headers
  let headerLines :=
    reqHeaders.foldl (fun acc kv => acc ++ kv.1 ++ ": " ++ kv.2 ++ "\r\n") ""
  let base := method ++ " " ++ path ++ " HTTP/1.1\r\n" ++ headerLines
  let withCl :=
    match body with
    | some b =>
      if b ≠ "" then
        base ++ "Content-Length: " ++ decimalString (utf8Bytes b).length ++ "\r\n"
      else base
    | none => base
  match body with
  | some b => if b ≠ "" then withCl ++ "\r\n" ++ b else withCl ++ "\r\n"
  | none => withCl ++ "\r\n"

/-- Value of one hexadecimal digit byte (ASCII), if any. -/
def hexDigitVal (b : Nat) : Option Nat :=
  if 48 ≤ b ∧ b ≤ 57 then some (b - 48)
  else if 97 ≤ b ∧ b ≤ 102 then some (b - 87)
  else if 65 ≤ b ∧ b ≤ 70 then some (b - 55)
  else none

def parseIntHexAux : List Nat → Nat → Nat
  | [], acc => acc
  | b :: r, acc =>
    match hexDigitVal b with
    | some d => parseIntHexAux r (acc * 16 + d)
    | none => acc

/-- Magnitude of the longest hex-digit run at the head; `none` when there is
no digit (`NaN`). -/
def parseIntHexMag (l : List Nat) : Option Nat :=
  match l with
  | b :: r =>
    match hexDigitVal b with
    | some d => some (parseIntHexAux r d)
    | none => none
  | [] => none

/-- Strip an optional `0x`/`0X` radix marker. -/
def stripHexMarker (l : List Nat) : List Nat :=
  match l with
  | 48 :: 120 :: r => r
  | 48 :: 88 :: r => r
  | l => l

/-- JavaScript `parseInt(s, 16)` on an already-trimmed ASCII byte string:
optional sign, optional `0x` marker, then the longest hex-digit run; no digit
means `NaN` (`none`). -/
def jsParseIntHex (l : List Nat) : Option Int :=
  match l with
  | [] => none
  | b :: r =>
    if b = 45 then (parseIntHexMag (stripHexMarker r)).map fun m => -(m : Int)
    else if b = 43 then (parseIntHexMag (stripHexMarker r)).map fun m => (m : Int)
    else (parseIntHexMag (stripHexMarker (b :: r))).map fun m => (m : Int)

/-- Node `buf.toString('ascii')` masks each byte to 7 bits. -/
def asciiMask (l : List Nat) : List Nat := l.map fun b => b % 128

def isJsWsByte (b : Nat) : Bool :=
  b == 9 || b == 10 || b == 11 || b == 12 || b == 13 || b == 32

/-- `String.prototype.trim` on an ASCII byte string. -/
def asciiTrim (l : List Nat) : List Nat :=
  ((l.dropWhile isJsWsByte).reverse.dropWhile isJsWsByte).reverse

/-- First index `≥ 0` (within the searched region) of a CRLF pair. -/
def indexOfCrlf : List Nat → Nat → Option Nat
  | [], _ => none
  | b :: rest, i =>
    match rest with
    | b2 :: _ => if b = 13 ∧ b2 = 10 then some i else indexOfCrlf rest (i + 1)
    | [] => none

/-- `raw.indexOf(crlf, offset)`: a negative offset counts from the end. -/
def indexOfCrlfFrom (raw : List Nat) (offset : Int) : Option Nat :=
  let start := (if offset < 0 then max ((raw.length : Int) + offset) 0 else offset).toNat
  (indexOfCrlf (raw.drop start) 0).map fun i => i + start

/-- `Buffer.subarray(s, e)`: negative indices count from the end, both clamp
to the buffer, and an empty range gives an empty buffer. -/
def jsSubarray (raw : List Nat) (s e : Int) : List Nat :=
  let len : Int := raw.length
  let s2 := if s < 0 then max (len + s) 0 else min s len
  let e2 := if e < 0 then max (len + e) 0 else min e len
  if s2 < e2 then (raw.drop s2.toNat).take (e2 - s2).toNat else []

/-- Result of one iteration of the `decodeChunked` while loop. -/
inductive ChunkStep where
  | exit (extra : List Nat) : ChunkStep
  | cont (chunk : List Nat) (newOffset : Int) : ChunkStep
deriving DecidableEq

/-- One iteration of `decodeChunked`'s loop body (the loop guard having
passed): find the chunk-size line, `parseInt` it (`trim`med ASCII), stop on a
missing CRLF, a `NaN` size (which pushes the empty `subarray(start, NaN→0)`
and exits via `NaN < length` being false) or a zero size; otherwise push the
chunk data and advance past its trailing CRLF. -/
def decodeChunkedStep (raw : List Nat) (offset : Int) : ChunkStep :=
  match indexOfCrlfFrom raw offset with
  | none => .exit []
  | some lineEnd =>
    let chunkSizeHex := asciiTrim (asciiMask (jsSubarray raw offset lineEnd))
    match jsParseIntHex chunkSizeHex with
    | none => .exit []
    | some chunkSize =>
      if chunkSize = 0 then .exit []
      else
        let chunkStart : Int := lineEnd + 2
        let chunkEnd : Int := chunkStart + chunkSize
        .cont (jsSubarray raw chunkStart chunkEnd) (chunkEnd + 2)

/-- Fuel-bounded run of `decodeChunked`'s loop; `none` means the fuel ran out
with the loop still running (the JavaScript loop would still be executing). -/
def decodeChunkedAux (raw : List Nat) : Nat → Int → List Nat → Option (List Nat)
  | 0, offset, acc => if offset < (raw.length : Int) then none else some acc
  | f + 1, offset, acc =>
    if offset < (raw.length : Int) then
      match decodeChunkedStep raw offset with
      | .exit extra => some (acc ++ extra)
      | .cont chunk newOffset => decodeChunkedAux raw f newOffset (acc ++ chunk)
    else some acc

/-- `decodeChunked` observed through a fuel bound: `some out` when the loop
finishes within `fuel` iterations with result `out`. -/
def decodeChunked (raw : List Nat) (fuel : Nat) : Option (List Nat) :=
  decodeChunkedAux raw fuel 0 []

/-! ### WHATWG `new URL(...)` model, enclave data shapes, and the generic
request handler (`shared/src/requestHandler.ts`, `types.ts`, `enclave.ts`) -/

def startsWithChars : List Char → List Char → Bool
  | [], _ => true
  | _ :: _, [] => false
  | p :: ps, c :: cs => p == c && startsWithChars ps cs

/-- Index of the first occurrence of `pat` in a character list. -/
def findSubIdx (pat : List Char) : List Char → Option Nat
  | [] => if pat = [] then some 0 else none
  | c :: cs =>
    if startsWithChars pat (c :: cs) then some 0
    else (findSubIdx pat cs).map fun i => i + 1

/-- `String.prototype.includes`. -/
def containsSubstr (s pat : String) : Bool := (findSubIdx pat.data s.data).isSome

structure UrlParts where
  hostname : String
  pathname : String
  search : String

/-- The WHATWG `new URL(u)` constructor, restricted to the absolute
`scheme://host[:port][/path][?query][#fragment]` forms the enclaves receive:
the hostname is ASCII-lowercased, an empty pathname normalises to `/`, and the
search keeps its leading `?`.  An input without `://` or with an empty host
throws (`none`). -/
def parseUrl (url : String) : Option UrlParts :=
  let cs := url.data
  match findSubIdx (':' :: '/' :: '/' :: []) cs with
  | none => none
  | some i =>
    let afterScheme := cs.drop (i + 3)
    let hostport := afterScheme.takeWhile fun c =>
      !(c == '/' || c == '?' || c == Char.ofNat 35)
    let rest := afterScheme.drop hostport.length
    let host := hostport.takeWhile fun c => c != ':'
    if host.isEmpty then none
    else
      let fragFree := rest.takeWhile fun c => c != Char.ofNat 35
      let pathname := fragFree.takeWhile fun c => c != '?'
      some ⟨String.mk (host.map Char.toLower),
        if pathname.isEmpty then "/" else String.mk pathname,
        String.mk (fragFree.drop pathname.length)⟩

structure AllowedHost where
  hostname : String
  vsockProxyPort : Nat

structure EnclaveConfig where
  name : String
  hosts : List AllowedHost

/-- `EnclaveRequest` from `types.ts`; the optional `body` is `none` when the
field is absent. -/
structure EnclaveRequest where
  id : String
  url : String
  method : String
  headers : List (String × String)
  body : Option String

/-- What `proxyFetch`/`proxyFetchPlain` resolve with. -/
structure HttpResponse where
  status : Nat
  headers : List (String × String)
  body : String

/-- `EnclaveResponse` from `types.ts`; the optional `error` and `attestation`
fields are `none` when absent. -/
structure EnclaveResponse where
  success : Bool
  status : Nat
  headers : List (String × String)
  rawBody : String
  error : Option String
  attestation : Option AttestationDocument

/-- The upstream fetch effect (`proxyFetch`/`proxyFetchPlain`): vsock port,
hostname, method, path, headers, optional body; `.error` is a thrown
exception's message. -/
def Fetch : Type :=
  Nat → String → String → String → List (String × String) → Option String →
    Except String HttpResponse

/-- The attestation effect, `attest` with its ambient NSM/clock/UUID state
already fixed: api endpoint, method, raw body, url, request headers. -/
def Attestor : Type :=
  String → String → String → String → List (String × String) →
    Except String AttestationDocument

/-- `Array.prototype.join(', ')`. -/
def joinCommaSep : List String → String
  | [] => ""
  | [s] => s
  | s :: rest => s ++ ", " ++ joinCommaSep rest

/-- `createRequestHandler` from `requestHandler.ts`, applied to one request.
Returns the `EnclaveResponse` together with the number of upstream fetches
performed (0 or 1), so that the no-fetch property of rejected hosts is part
of the model.  A `new URL` failure lands in the catch-all with the
`Invalid URL` TypeError message. -/
def createRequestHandler (fetch : Fetch) (att : Attestor) (config : EnclaveConfig)
    (request : EnclaveRequest) : EnclaveResponse × Nat :=
  match parseUrl request.url with
  | none => (⟨false, 502, [], "", some "Invalid URL", none⟩, 0)
  | some u =>
    match config.hosts.find? fun h => h.hostname == u.hostname with
    | none =>
      (⟨false, 403, [], "",
        some ("Host not allowed: " ++ u.hostname ++ ". This enclave only permits: "
          ++ joinCommaSep (config.hosts.map fun h => h.hostname)), none⟩, 0)
    | some allowed =>
      let path := u.pathname ++ u.search
      let apiEndpoint := u.hostname ++ u.pathname
      match fetch allowed.vsockProxyPort u.hostname request.method path
          request.headers request.body with
      | .error e => (⟨false, 502, [], "", some e, none⟩, 1)
      | .ok resp =>
        match att apiEndpoint request.method resp.body request.url request.headers with
        | .error e => (⟨false, 502, [], "", some e, none⟩, 1)
        | .ok a => (⟨true, resp.status, resp.headers, resp.body, none, some a⟩, 1)

/-- `handleConnection` from `enclave.ts`, observed at the response it writes
back: the handler result when the request framing was read successfully, or
the 500 error envelope when `readMessage` threw. -/
def connectionReply (readResult : Except String EnclaveRequest)
    (handle : EnclaveRequest → EnclaveResponse) : EnclaveResponse :=
  match readResult with
  | .ok request => handle request
  | .error e => ⟨false, 500, [], "", some e, none⟩

/-! ### JavaScript dynamic-value helpers and base64 -/

/-- Property access `j.k` on a parsed JSON value (`undefined` for non-objects
and missing keys). -/
def jsGet (j : Json) (k : String) : Option Json :=
  match j with
  | .obj ms => ms.lookup k
  | _ => none

/-- JavaScript truthiness of a parsed JSON value. -/
def jsTruthy : Json → Bool
  | .null => false
  | .bool b => b
  | .num n => n != 0
  | .str s => s != ""
  | .arr _ => true
  | .obj _ => true

/-- Truthiness of a possibly-`undefined` value. -/
def jsTruthyOpt (o : Option Json) : Bool :=
  match o with
  | none => false
  | some j => jsTruthy j

mutual

/-- JavaScript `String(v)` on a parsed JSON value (arrays join their
elements with `,`, `null`/`undefined` elements becoming empty; plain objects
display as `[object Object]`). -/
def jsDisplayString : Json → String
  | .null => "null"
  | .bool true => "true"
  | .bool false => "false"
  | .num n => String.mk (intDecChars n)
  | .str s => s
  | .arr items => jsDisplayList items
  | .obj _ => "[object Object]"

def jsDisplayList : List Json → String
  | [] => ""
  | [Json.null] => ""
  | [j] => jsDisplayString j
  | Json.null :: rest => "," ++ jsDisplayList rest
  | j :: rest => jsDisplayString j ++ "," ++ jsDisplayList rest

end

/-- `String(v)` where `v` may be `undefined`. -/
def jsDisplayOpt (o : Option Json) : String :=
  match o with
  | none => "undefined"
  | some j => jsDisplayString j

/-- A parsed JSON value as a codec `values` entry.  Strings, integral numbers
and `null` map directly; booleans and non-primitives only ever reach
`encodeField`'s `String(value)` conversions in this repository, so they are
pre-converted to their display strings. -/
def jsonToCodecValue : Json → JsValue
  | .str s => .str s
  | .num n => .num n
  | .null => .nullV
  | j => .str (jsDisplayString j)

def base64Alphabet : List Char :=
  "ABCDEFGHIJKLMNOPQRSTUVWXYZabcdefghijklmnopqrstuvwxyz0123456789+/".data

def base64Char (n : Nat) : Char := base64Alphabet.getD n (Char.ofNat 65)

/-- Standard base64 with padding (`Buffer.toString('base64')`), three input
bytes per four output characters. -/
def base64Go : List Nat → List Char
  | [] => []
  | [a] =>
    [base64Char (a / 4 % 64), base64Char (a % 4 * 16), Char.ofNat 61, Char.ofNat 61]
  | [a, b] =>
    [base64Char (a / 4 % 64), base64Char (a % 4 * 16 + b / 16 % 16),
     base64Char (b % 16 * 4), Char.ofNat 61]
  | a :: b :: c :: rest =>
    base64Char (a / 4 % 64) :: base64Char (a % 4 * 16 + b / 16 % 16) ::
    base64Char (b % 16 * 4 + c / 64 % 4) :: base64Char (c % 64) :: base64Go rest

def base64Encode (bytes : List Nat) : String := String.mk (base64Go bytes)

/-- Unreserved output bytes of `encodeURIComponent`
(alphanumerics and `- _ . ! ~ * ' ( )`). -/
def isUriUnreserved (n : Nat) : Bool :=
  (48 ≤ n && n ≤ 57) || (65 ≤ n && n ≤ 90) || (97 ≤ n && n ≤ 122) ||
  n == 45 || n == 95 || n == 46 || n == 33 || n == 126 || n == 42 ||
  n == 39 || n == 40 || n == 41

def hexUpperChar (d : Nat) : Char :=
  Char.ofNat (if d < 10 then 48 + d else 55 + d)

/-- `encodeURIComponent`: unreserved characters kept, everything else
percent-encoded byte-by-byte over its UTF-8 form, uppercase hex. -/
def encodeURIComponent (s : String) : String :=
  String.mk (List.flatten (s.data.map fun c =>
    if isUriUnreserved c.toNat then [c]
    else List.flatten ((utf8EncodeChar c).map fun b =>
      [Char.ofNat 37, hexUpperChar (b / 16), hexUpperChar (b % 16)])))

/-! ### VIES/HMRC custom handler (`viesHandler.ts`) -/

/-- `escapeXml`.  The source chains global `replace`s (`&` first); since every
pattern is a single character and no replacement re-matches a later pattern,
this is the per-character map. -/
def escapeXml (s : String) : String :=
  String.mk (List.flatten (s.data.map fun c =>
    if c = Char.ofNat 38 then ('&' :: 'a' :: 'm' :: 'p' :: ';' :: [])
    else if c = Char.ofNat 60 then ('&' :: 'l' :: 't' :: ';' :: [])
    else if c = Char.ofNat 62 then ('&' :: 'g' :: 't' :: ';' :: [])
    else if c = Char.ofNat 34 then ('&' :: 'q' :: 'u' :: 'o' :: 't' :: ';' :: [])
    else if c = Char.ofNat 39 then ('&' :: 'a' :: 'p' :: 'o' :: 's' :: ';' :: [])
    else [c]))

/-- `buildCheckVatSoapRequest`. -/
def buildCheckVatSoapRequest (countryCode vatNumber : String) : String :=
  "<?xml version=\"1.0\" encoding=\"UTF-8\"?>\n<soapenv:Envelope xmlns:soapenv=\"http://schemas.xmlsoap.org/soap/envelope/\"\n                  xmlns:urn=\"urn:ec.europa.eu:taxud:vies:services:checkVat:types\">\n  <soapenv:Header/>\n  <soapenv:Body>\n    <urn:checkVat>\n      <urn:countryCode>" ++
  escapeXml countryCode ++
  "</urn:countryCode>\n      <urn:vatNumber>" ++
  escapeXml vatNumber ++
  "</urn:vatNumber>\n    </urn:checkVat>\n  </soapenv:Body>\n</soapenv:Envelope>"

/-- The `\x7b valid, name?, address? \x7d` record both VAT-check parsers
produce.  `name` keeps the raw JSON value the HMRC path may surface (the SOAP
parser only ever yields `.str` values or `none`). -/
structure ViesParsed where
  valid : Bool
  name : Option Json
  address : Option String

/-- The two regex-driven SOAP extractions, abstracted as oracle parameters:
`parseCheckVat` is `parseCheckVatSoapResponse`, and `faultString` is the
`faultstring` capture with an empty or missing match mapped to `none`
(matching the `|| fallback` use site). -/
structure SoapOracle where
  parseCheckVat : String → ViesParsed
  faultString : String → Option String

structure ViesHandlerConfig where
  viesHostname : String
  viesVsockPort : Nat
  hmrcHostname : String
  hmrcVsockPort : Nat

/-- `parseHmrcResponse` from `viesHandler.ts`: 404 means invalid; otherwise
`JSON.parse` — on success `valid` is unconditionally `true`, with
`target?.name` passed through and the address lines joined by `, ` dropping
falsy entries; a parse failure means invalid. -/
def parseHmrcResponse (json : String) (status : Nat) : ViesParsed :=
  if status = 404 then ⟨false, none, none⟩
  else
    match jsonParse json with
    | none => ⟨false, none, none⟩
    | some data =>
      let target : Option Json :=
        match jsGet data "target" with
        | some Json.null => none
        | o => o
      let name := target.bind fun t => jsGet t "name"
      let address :=
        match target.bind fun t => jsGet t "address" with
        | some addr =>
          if jsTruthy addr then
            some (joinCommaSep
              ((([jsGet addr "line1", jsGet addr "line2",
                 jsGet addr "postcode"].filterMap id).filter jsTruthy).map
                jsDisplayString))
          else none
        | none => none
      ⟨true, name, address⟩

/-- The tail both routes of `createViesHandler` share: encode the five-field
record, base64 it, attest it, and build the success envelope. -/
def viesFinish (att : Attestor) (cfg : ViesHandlerConfig) (ccIsGB : Bool)
    (ccStr vatStr : String) (valid : Bool) (name : Option Json)
    (address : Option String) (apiEndpoint : String) :
    Except String EnclaveResponse :=
  let nameVal : JsValue :=
    match name with
    | some v => if jsTruthy v then jsonToCodecValue v else .nullV
    | none => .nullV
  let addrVal : JsValue :=
    match address with
    | some s => if s ≠ "" then .str s else .nullV
    | none => .nullV
  match encodeFieldElements VIES_SCHEMA
      [("countryCode", .str ccStr), ("vatNumber", .str vatStr),
       ("valid", .num (if valid then 1 else 0)), ("name", nameVal),
       ("address", addrVal)] with
  | .error e => .error e
  | .ok encodedBytes =>
    let rawBody := base64Encode encodedBytes
    let url :=
      if ccIsGB then
        "https://" ++ cfg.hmrcHostname
          ++ "/organisations/vat/check-vat-number/lookup/" ++ vatStr
      else
        "https://" ++ cfg.viesHostname
          ++ "/taxation_customs/vies/services/checkVatService"
    match att apiEndpoint (if ccIsGB then "GET" else "POST") rawBody url
        [("countryCode", ccStr), ("vatNumber", vatStr)] with
    | .error e => .error e
    | .ok attestation =>
      .ok ⟨true, 200,
        [("x-vies-country-code", ccStr), ("x-vies-vat-number", vatStr),
         ("x-vies-valid", if valid then "true" else "false"),
         ("x-vies-name",
          match name with
          | some v => if jsTruthy v then jsDisplayString v else ""
          | none => ""),
         ("x-vies-address",
          match address with
          | some s => s
          | none => "")],
        rawBody, none, some attestation⟩

/-- The body of `createViesHandler`'s `try` block; `.error` is a thrown
exception's message, caught by `createViesHandler`. -/
def viesHandlerCore (fetch : Fetch) (att : Attestor) (soap : SoapOracle)
    (cfg : ViesHandlerConfig) (request : EnclaveRequest) :
    Except String EnclaveResponse :=
  let bodyStr :=
    match request.body with
    | some b => if b = "" then "\x7b\x7d" else b
    | none => "\x7b\x7d"
  match jsonParse bodyStr with
  | none =>
    .ok ⟨false, 400, [], "",
      some "Invalid request body — expected JSON with \x7b countryCode, vatNumber \x7d",
      none⟩
  | some body =>
    let countryCode := jsGet body "countryCode"
    let vatNumber := jsGet body "vatNumber"
    if !jsTruthyOpt countryCode || !jsTruthyOpt vatNumber then
      .ok ⟨false, 400, [], "", some "Both countryCode and vatNumber are required", none⟩
    else
      let ccIsGB :=
        match countryCode with
        | some (Json.str s) => s == "GB"
        | _ => false
      let ccStr := jsDisplayOpt countryCode
      let vatStr := jsDisplayOpt vatNumber
      if ccIsGB then
        let path := "/organisations/vat/check-vat-number/lookup/"
          ++ encodeURIComponent vatStr
        let apiEndpoint := cfg.hmrcHostname ++ path
        match fetch cfg.hmrcVsockPort cfg.hmrcHostname "GET" path
            [("Accept", "application/vnd.hmrc.1.0+json")] none with
        | .error e => .error e
        | .ok response =>
          let parsed := parseHmrcResponse response.body response.status
          viesFinish att cfg true ccStr vatStr parsed.valid parsed.name
            parsed.address apiEndpoint
      else
        let soapBody := buildCheckVatSoapRequest ccStr vatStr
        let path := "/taxation_customs/vies/services/checkVatService"
        let apiEndpoint := cfg.viesHostname ++ path
        match fetch cfg.viesVsockPort cfg.viesHostname "POST" path
            [("Content-Type", "text/xml;charset=UTF-8"), ("SOAPAction", "")]
            (some soapBody) with
        | .error e => .error e
        | .ok response =>
          if containsSubstr response.body "Fault" || response.status ≠ 200 then
            .error ("VIES SOAP error: "
              ++ ((soap.faultString response.body).getD
                  ("HTTP " ++ decimalString response.status)))
          else
            let parsed := soap.parseCheckVat response.body
            viesFinish att cfg false ccStr vatStr parsed.valid parsed.name
              parsed.address apiEndpoint

/-- `createViesHandler` applied to one request: the `try` body with its
catch-all 502 wrapper. -/
def createViesHandler (fetch : Fetch) (att : Attestor) (soap : SoapOracle)
    (cfg : ViesHandlerConfig) (request : EnclaveRequest) : EnclaveResponse :=
  match viesHandlerCore fetch att soap cfg request with
  | .ok r => r
  | .error e => ⟨false, 502, [], "", some e, none⟩

/-! ### SICAE custom handler (`sicae/src/sicaeHandler.ts`) -/

structure FormVariant where
  nifField : String
  submitField : String
  submitValue : String

structure SicaeResult where
  officialName : String
  caePrimary : String
  caePrimaryDescription : String
  caeSecondary : List (String × String)

/-- The regex/URLSearchParams-driven pure helpers of the SICAE handler,
abstracted as oracle parameters: `parseResults` is `parseSicaeResults` (with
its internal try/catch making it total), `viewState`/`eventValidation` are the
hidden-field captures, `sessionId` the `ASP.NET_SessionId` cookie capture,
`variants` is `detectFormVariants`, and `formBody` is `buildFormBody`. -/
structure SicaeParsers where
  parseResults : String → Option SicaeResult
  viewState : String → Option String
  eventValidation : String → Option String
  sessionId : String → Option String
  variants : String → List FormVariant
  formBody : String → String → String → FormVariant → String

structure SicaeHandlerConfig where
  hostname : String
  vsockProxyPort : Nat

/-- `/^\d\x7b9\x7d$/.test` — exactly nine ASCII digits. -/
def isNineDigits (s : String) : Bool :=
  s.data.length == 9 && s.data.all isDigitChar

def sicaeUserAgent : String :=
  "Mozilla/5.0 (Windows NT 10.0; Win64; x64) AppleWebKit/537.36 (KHTML, like Gecko) Chrome/120.0.0.0 Safari/537.36"

def sicaeAccept : String :=
  "text/html,application/xhtml+xml,application/xml;q=0.9,*/*;q=0.8"

/-- The `for (const variant of variants)` POST loop: stop with a result on a
parsed 200 body, stop empty-handed when the server clearly processed the form
(`ClassErro`/`gridMain`), otherwise try the next variant; a non-200 POST also
falls through to the next variant. -/
def sicaeLoop (fetch : Fetch) (p : SicaeParsers) (cfg : SicaeHandlerConfig)
    (nif viewState eventValidation sessionCookie : String) :
    List FormVariant → Except String (Option SicaeResult)
  | [] => .ok none
  | variant :: rest =>
    let formBody := p.formBody nif viewState eventValidation variant
    let postHeaders :=
      [("User-Agent", sicaeUserAgent), ("Accept", sicaeAccept),
       ("Content-Type", "application/x-www-form-urlencoded"),
       ("Referer", "http://" ++ cfg.hostname ++ "/Consulta.aspx"),
       ("Origin", "http://" ++ cfg.hostname)] ++
      (if sessionCookie ≠ "" then [("Cookie", sessionCookie)] else [])
    match fetch cfg.vsockProxyPort cfg.hostname "POST" "/Consulta.aspx"
        postHeaders (some formBody) with
    | .error e => .error e
    | .ok postResponse =>
      if postResponse.status = 200 then
        match p.parseResults postResponse.body with
        | some r => .ok (some r)
        | none =>
          if containsSubstr postResponse.body "ClassErro"
              || containsSubstr postResponse.body "gridMain" then
            .ok none
          else
            sicaeLoop fetch p cfg nif viewState eventValidation sessionCookie rest
      else sicaeLoop fetch p cfg nif viewState eventValidation sessionCookie rest

/-- The body of `createSicaeHandler`'s `try` block; `.error` is a thrown
exception's message. -/
def sicaeHandlerCore (fetch : Fetch) (att : Attestor) (p : SicaeParsers)
    (cfg : SicaeHandlerConfig) (request : EnclaveRequest) :
    Except String EnclaveResponse :=
  let bodyStr :=
    match request.body with
    | some b => if b = "" then "\x7b\x7d" else b
    | none => "\x7b\x7d"
  match jsonParse bodyStr with
  | none =>
    .ok ⟨false, 400, [], "",
      some "Invalid request body — expected JSON with \x7b nif: string \x7d", none⟩
  | some body =>
    let nifJ := jsGet body "nif"
    let nifStr := jsDisplayOpt nifJ
    if !jsTruthyOpt nifJ || !isNineDigits nifStr then
      .ok ⟨false, 400, [], "",
        some ("Invalid NIF: \"" ++ nifStr ++ "\" — must be exactly 9 digits"), none⟩
    else
      match fetch cfg.vsockProxyPort cfg.hostname "GET" "/Consulta.aspx"
          [("User-Agent", sicaeUserAgent), ("Accept", sicaeAccept),
           ("Accept-Language", "pt-PT,pt;q=0.9")] none with
      | .error e => .error e
      | .ok getResponse =>
        if getResponse.status ≠ 200 then
          .ok ⟨false, getResponse.status, [], "",
            some ("SICAE GET failed: " ++ decimalString getResponse.status), none⟩
        else
          let pageHtml := getResponse.body
          match p.viewState pageHtml with
          | none =>
            .ok ⟨false, 502, [], "", some "Could not extract __VIEWSTATE", none⟩
          | some viewState =>
            match p.eventValidation pageHtml with
            | none =>
              .ok ⟨false, 502, [], "", some "Could not extract __EVENTVALIDATION", none⟩
            | some eventValidation =>
              let cookieHeader := (getResponse.headers.lookup "set-cookie").getD ""
              let sessionCookie :=
                match p.sessionId cookieHeader with
                | some sid => "ASP.NET_SessionId=" ++ sid
                | none => ""
              match sicaeLoop fetch p cfg nifStr viewState eventValidation
                  sessionCookie (p.variants pageHtml) with
              | .error e => .error e
              | .ok none =>
                .ok ⟨false, 404, [("x-sicae-nif", nifStr)], "",
                  some ("No CAE found for NIF " ++ nifStr), none⟩
              | .ok (some sicaeResult) =>
                let cae2Code := sicaeResult.caeSecondary.head?.map fun kv => kv.1
                let cae2Desc := sicaeResult.caeSecondary.head?.map fun kv => kv.2
                let optVal : Option String → JsValue := fun o =>
                  match o with
                  | some s => .str s
                  | none => .nullV
                match encodeFieldElements SICAE_SCHEMA
                    [("nif", .str nifStr), ("name", .str sicaeResult.officialName),
                     ("cae1Code", .str sicaeResult.caePrimary),
                     ("cae1Desc", .str sicaeResult.caePrimaryDescription),
                     ("cae2Code", optVal cae2Code), ("cae2Desc", optVal cae2Desc)] with
                | .error e => .error e
                | .ok encodedBytes =>
                  let rawBody := base64Encode encodedBytes
                  let apiEndpoint := cfg.hostname ++ "/Consulta.aspx"
                  match att apiEndpoint "POST" rawBody
                      ("http://" ++ cfg.hostname ++ "/Consulta.aspx")
                      [("nif", nifStr)] with
                  | .error e => .error e
                  | .ok attestation =>
                    .ok ⟨true, 200,
                      [("x-sicae-nif", nifStr),
                       ("x-sicae-name", sicaeResult.officialName),
                       ("x-sicae-cae1-code", sicaeResult.caePrimary),
                       ("x-sicae-cae1-desc", sicaeResult.caePrimaryDescription),
                       ("x-sicae-cae2-code", cae2Code.getD ""),
                       ("x-sicae-cae2-desc", cae2Desc.getD "")],
                      rawBody, none, some attestation⟩

/-- `createSicaeHandler` applied to one request: the `try` body with its
catch-all 502 wrapper. -/
def createSicaeHandler (fetch : Fetch) (att : Attestor) (p : SicaeParsers)
    (cfg : SicaeHandlerConfig) (request : EnclaveRequest) : EnclaveResponse :=
  match sicaeHandlerCore fetch att p cfg request with
  | .ok r => r
  | .error e => ⟨false, 502, [], "", some e, none⟩

/-! ## Theorems -/

theorem charOfNat_toNat (c : Char) : Char.ofNat c.toNat = c := by
  have h : Nat.isValidChar c.toNat := c.valid
  unfold Char.ofNat
  rw [dif_pos h]
  rfl

theorem utf8EncodeChar_lt (c : Char) : ∀ b ∈ utf8EncodeChar c, b < 256 := by
  have hv : c.toNat < 55296 ∨ (57343 < c.toNat ∧ c.toNat < 1114112) := c.valid
  intro b hb
  unfold utf8EncodeChar at hb
  rcases Nat.lt_or_ge c.toNat 128 with h1 | h1
  · simp [h1] at hb; omega
  · rcases Nat.lt_or_ge c.toNat 2048 with h2 | h2
    · simp [Nat.not_lt.mpr h1, h2] at hb
      rcases hb with hb | hb <;> omega
    · rcases Nat.lt_or_ge c.toNat 65536 with h3 | h3
      · simp [Nat.not_lt.mpr h1, Nat.not_lt.mpr h2, h3] at hb
        rcases hb with hb | hb | hb <;> omega
      · simp [Nat.not_lt.mpr h1, Nat.not_lt.mpr h2, Nat.not_lt.mpr h3] at hb
        rcases hb with hb | hb | hb | hb <;> omega

theorem utf8EncodeChar_length_pos (c : Char) : 1 ≤ (utf8EncodeChar c).length := by
  unfold utf8EncodeChar
  dsimp only
  split_ifs <;> simp

theorem utf8EncodeList_append (l1 l2 : List Char) :
    utf8EncodeList (l1 ++ l2) = utf8EncodeList l1 ++ utf8EncodeList l2 := by
  induction l1 with
  | nil => simp [utf8EncodeList]
  | cons c cs ih => simp [utf8EncodeList, ih]

theorem utf8EncodeList_lt (l : List Char) : ∀ b ∈ utf8EncodeList l, b < 256 := by
  induction l with
  | nil => intro b hb; simp [utf8EncodeList] at hb
  | cons c cs ih =>
    intro b hb
    simp only [utf8EncodeList, List.mem_append] at hb
    rcases hb with hb | hb
    · exact utf8EncodeChar_lt c b hb
    · exact ih b hb

theorem utf8Bytes_lt (s : String) : ∀ b ∈ utf8Bytes s, b < 256 :=
  utf8EncodeList_lt s.data

/-- One-character UTF-8 round trip: decoding an encoded character followed by
any byte tail yields that character and then continues on the tail. -/
theorem utf8DecodeAux_encodeChar (f : Nat) (c : Char) (rest : List Nat) :
    utf8DecodeAux (f + 1) (utf8EncodeChar c ++ rest) = c :: utf8DecodeAux f rest := by
  have hv : c.toNat < 55296 ∨ (57343 < c.toNat ∧ c.toNat < 1114112) := c.valid
  rcases Nat.lt_or_ge c.toNat 128 with h1 | h1
  · have he : utf8EncodeChar c = [c.toNat] := by simp [utf8EncodeChar, h1]
    rw [he, List.cons_append, List.nil_append]
    simp only [utf8DecodeAux]
    rw [if_pos h1, charOfNat_toNat]
  · rcases Nat.lt_or_ge c.toNat 2048 with h2 | h2
    · have he : utf8EncodeChar c ++ rest =
          (192 + c.toNat / 64) :: (128 + c.toNat % 64) :: rest := by
        simp [utf8EncodeChar, Nat.not_lt.mpr h1, h2]
      rw [he]
      simp only [utf8DecodeAux]
      rw [if_neg (by omega), if_neg (by omega), if_pos (by omega)]
      rw [if_pos (by omega)]
      have harg : (192 + c.toNat / 64 - 192) * 64 + (128 + c.toNat % 64 - 128) = c.toNat := by
        omega
      rw [harg, charOfNat_toNat]
    · rcases Nat.lt_or_ge c.toNat 65536 with h3 | h3
      · have he : utf8EncodeChar c ++ rest =
            (224 + c.toNat / 4096) :: (128 + c.toNat / 64 % 64) ::
              (128 + c.toNat % 64) :: rest := by
          simp [utf8EncodeChar, Nat.not_lt.mpr h1, Nat.not_lt.mpr h2, h3]
        rw [he]
        simp only [utf8DecodeAux]
        rw [if_neg (by omega), if_neg (by omega), if_neg (by omega), if_pos (by omega)]
        rw [if_pos (by omega)]
        have harg : (224 + c.toNat / 4096 - 224) * 4096 +
            (128 + c.toNat / 64 % 64 - 128) * 64 + (128 + c.toNat % 64 - 128) = c.toNat := by
          omega
        rw [harg, if_pos (by omega), charOfNat_toNat]
      · have he : utf8EncodeChar c ++ rest =
            (240 + c.toNat / 262144) :: (128 + c.toNat / 4096 % 64) ::
              (128 + c.toNat / 64 % 64) :: (128 + c.toNat % 64) :: rest := by
          simp [utf8EncodeChar, Nat.not_lt.mpr h1, Nat.not_lt.mpr h2, Nat.not_lt.mpr h3]
        rw [he]
        simp only [utf8DecodeAux]
        rw [if_neg (by omega), if_neg (by omega), if_neg (by omega), if_neg (by omega),
          if_pos (by omega)]
        rw [if_pos (by omega)]
        have harg : (240 + c.toNat / 262144 - 240) * 262144 +
            (128 + c.toNat / 4096 % 64 - 128) * 4096 +
            (128 + c.toNat / 64 % 64 - 128) * 64 + (128 + c.toNat % 64 - 128) = c.toNat := by
          omega
        rw [harg, if_pos (by omega), charOfNat_toNat]

theorem utf8DecodeAux_nil (f : Nat) : utf8DecodeAux f [] = [] := by
  cases f <;> simp [utf8DecodeAux]

/-- Full UTF-8 round trip on character lists, for any sufficient fuel. -/
theorem utf8DecodeAux_encodeList (l : List Char) (f : Nat)
    (hf : (utf8EncodeList l).length ≤ f) :
    utf8DecodeAux f (utf8EncodeList l) = l := by
  induction l generalizing f with
  | nil => simpa [utf8EncodeList] using utf8DecodeAux_nil f
  | cons c cs ih =>
    have hc := utf8EncodeChar_length_pos c
    rw [utf8EncodeList] at hf ⊢
    rw [List.length_append] at hf
    rcases f with _ | f
    · omega
    · rw [utf8DecodeAux_encodeChar, ih f (by omega)]

/-- Full UTF-8 round trip on byte lists. -/
theorem utf8Decode_encodeList (l : List Char) :
    utf8Decode (utf8EncodeList l) = l :=
  utf8DecodeAux_encodeList l _ le_rfl

/-- Full UTF-8 round trip on strings: decoding the UTF-8 bytes of a string
gives the string back. -/
theorem utf8DecodeString_bytes (s : String) :
    utf8DecodeString (utf8Bytes s) = s := by
  rw [utf8DecodeString, utf8Bytes, utf8Decode_encodeList]

theorem digitsBEtoNat_append_digit (l : List Nat) (d : Nat) :
    digitsBEtoNat (l ++ [d]) = digitsBEtoNat l * 16 + d := by
  induction l with
  | nil => simp [digitsBEtoNat]
  | cons x xs ih =>
    simp only [List.cons_append, digitsBEtoNat, List.append_eq]
    rw [ih]
    have hl : (xs ++ [d]).length = xs.length + 1 := by simp
    rw [hl, Nat.pow_succ]
    ring

theorem digitsBEtoNat_replicate_zero (k : Nat) (l : List Nat) :
    digitsBEtoNat (List.replicate k 0 ++ l) = digitsBEtoNat l := by
  induction k with
  | zero => simp
  | succ k ih => simp [List.replicate_succ, digitsBEtoNat, ih]

theorem bytesBEtoNat_replicate_zero (k : Nat) (l : List Nat) :
    bytesBEtoNat (List.replicate k 0 ++ l) = bytesBEtoNat l := by
  induction k with
  | zero => simp
  | succ k ih => simp [List.replicate_succ, bytesBEtoNat, ih]

theorem natToHexDigitsAux_val (f : Nat) : ∀ n, n ≤ f →
    digitsBEtoNat (natToHexDigitsAux f n) = n := by
  induction f with
  | zero =>
    intro n hn
    interval_cases n
    simp [natToHexDigitsAux, digitsBEtoNat]
  | succ f ih =>
    intro n hn
    rcases Nat.eq_zero_or_pos n with h0 | h0
    · subst h0; simp [natToHexDigitsAux, digitsBEtoNat]
    · have : natToHexDigitsAux (f + 1) n = natToHexDigitsAux f (n / 16) ++ [n % 16] := by
        rcases n with _ | m
        · omega
        · rfl
      rw [this, digitsBEtoNat_append_digit, ih (n / 16) (by omega)]
      omega

theorem natToHexDigits_val (n : Nat) : digitsBEtoNat (natToHexDigits n) = n :=
  natToHexDigitsAux_val n n le_rfl

theorem natToHexDigitsAux_lt (f : Nat) : ∀ n, ∀ d ∈ natToHexDigitsAux f n, d < 16 := by
  induction f with
  | zero => intro n d hd; simp [natToHexDigitsAux] at hd
  | succ f ih =>
    intro n d hd
    rcases n with _ | m
    · simp [natToHexDigitsAux] at hd
    · rw [show natToHexDigitsAux (f + 1) (m + 1)
          = natToHexDigitsAux f ((m + 1) / 16) ++ [(m + 1) % 16] from rfl] at hd
      rcases List.mem_append.mp hd with h | h
      · exact ih _ _ h
      · simp at h; omega

theorem natToHexDigitsAux_length (f : Nat) : ∀ n k, n ≤ f → n < 16 ^ k →
    (natToHexDigitsAux f n).length ≤ k := by
  induction f with
  | zero =>
    intro n k hn _
    interval_cases n
    simp [natToHexDigitsAux]
  | succ f ih =>
    intro n k hn hk
    rcases Nat.eq_zero_or_pos n with h0 | h0
    · subst h0; simp [natToHexDigitsAux]
    · have hrw : natToHexDigitsAux (f + 1) n = natToHexDigitsAux f (n / 16) ++ [n % 16] := by
        rcases n with _ | m
        · omega
        · rfl
      rw [hrw, List.length_append, List.length_cons, List.length_nil]
      rcases k with _ | k
      · simp at hk; omega
      · have h16 : n / 16 < 16 ^ k := by
          have := Nat.pow_succ 16 k
          have : n < 16 ^ k * 16 := by rw [← Nat.pow_succ]; exact hk
          omega
        have := ih (n / 16) k (by omega) h16
        omega

theorem hexPairsToBytes_length (l : List Nat) :
    (hexPairsToBytes l).length = l.length / 2 := by
  induction l using hexPairsToBytes.induct with
  | case1 d0 d1 r ih =>
    simp only [hexPairsToBytes, List.length_cons, ih]
    omega
  | case2 l h =>
    rcases l with _ | ⟨a, _ | ⟨b, r⟩⟩
    · simp [hexPairsToBytes]
    · simp [hexPairsToBytes]
    · exact absurd rfl (h a b r)

theorem hexPairsToBytes_lt (l : List Nat) (hd : ∀ d ∈ l, d < 16) :
    ∀ b ∈ hexPairsToBytes l, b < 256 := by
  induction l using hexPairsToBytes.induct with
  | case1 d0 d1 r ih =>
    intro b hb
    simp only [hexPairsToBytes, List.mem_cons] at hb
    rcases hb with hb | hb
    · have h0 := hd d0 (by simp)
      have h1 := hd d1 (by simp)
      omega
    · exact ih (fun d hdm => hd d (by simp [hdm])) b hb
  | case2 l h =>
    intro b hb
    rcases l with _ | ⟨a, _ | ⟨c, r⟩⟩
    · simp [hexPairsToBytes] at hb
    · simp [hexPairsToBytes] at hb
    · exact absurd rfl (h a c r)

theorem hexPairsToBytes_val (l : List Nat) (hd : ∀ d ∈ l, d < 16)
    (he : l.length % 2 = 0) :
    bytesBEtoNat (hexPairsToBytes l) = digitsBEtoNat l := by
  induction l using hexPairsToBytes.induct with
  | case1 d0 d1 r ih =>
    have hr : r.length % 2 = 0 := by
      simp only [List.length_cons] at he
      omega
    simp only [hexPairsToBytes, bytesBEtoNat, digitsBEtoNat, List.length_cons,
      hexPairsToBytes_length,
      ih (fun d hdm => hd d (by simp [hdm])) hr]
    have hpow : (256 : Nat) ^ (r.length / 2) = 16 ^ r.length := by
      have h2 : (256 : Nat) = 16 ^ 2 := by norm_num
      rw [h2, ← Nat.pow_mul]
      congr 1
      omega
    rw [hpow]
    ring
  | case2 l h =>
    rcases l with _ | ⟨a, _ | ⟨c, r⟩⟩
    · simp [hexPairsToBytes, digitsBEtoNat, bytesBEtoNat]
    · simp at he
    · exact absurd rfl (h a c r)

theorem bigintToBytes32_spec (v : Nat) (hv : v < 2 ^ 256) :
    (bigintToBytes32 v).length = 32 ∧
    (∀ b ∈ bigintToBytes32 v, b < 256) ∧
    bytesBEtoNat (bigintToBytes32 v) = v := by
  have hlen : (natToHexDigits v).length ≤ 64 := by
    apply natToHexDigitsAux_length v v 64 le_rfl
    calc v < 2 ^ 256 := hv
    _ = 16 ^ 64 := by norm_num
  have hdig : ∀ d ∈ natToHexDigits v, d < 16 := natToHexDigitsAux_lt v v
  have hpadlen : (padStartZeros 64 (natToHexDigits v)).length = 64 := by
    simp [padStartZeros, List.length_append, List.length_replicate]
    omega
  have hpaddig : ∀ d ∈ padStartZeros 64 (natToHexDigits v), d < 16 := by
    intro d hdm
    rcases List.mem_append.mp hdm with h | h
    · have := List.eq_of_mem_replicate h
      omega
    · exact hdig d h
  refine ⟨?_, ?_, ?_⟩
  · rw [bigintToBytes32, hexPairsToBytes_length, hpadlen]
  · exact hexPairsToBytes_lt _ hpaddig
  · rw [bigintToBytes32, hexPairsToBytes_val _ hpaddig (by rw [hpadlen])]
    rw [padStartZeros, digitsBEtoNat_replicate_zero, natToHexDigits_val]

theorem charToNat_ofNat (n : Nat) (h : n < 55296) : (Char.ofNat n).toNat = n := by
  unfold Char.ofNat
  rw [dif_pos (Or.inl h)]
  rfl

/-! ### Round trip of the JSON codec: numbers -/

theorem char_eq_iff_toNat (a b : Char) : a = b ↔ a.toNat = b.toNat :=
  ⟨congrArg Char.toNat, fun h => by rw [← charOfNat_toNat a, h, charOfNat_toNat]⟩

theorem decDigitChar_toNat (d : Nat) (h : d < 10) : (decDigitChar d).toNat = 48 + d :=
  charToNat_ofNat _ (by omega)

theorem hexDigitChar_toNat (d : Nat) (h : d < 16) :
    (hexDigitChar d).toNat = if d < 10 then 48 + d else 87 + d :=
  charToNat_ofNat _ (by split_ifs <;> omega)

theorem hexCharVal_hexDigitChar (d : Nat) (h : d < 16) :
    hexCharVal (hexDigitChar d) = some d := by
  by_cases hd : d < 10
  · have ht : (hexDigitChar d).toNat = 48 + d := by rw [hexDigitChar_toNat d h, if_pos hd]
    unfold hexCharVal
    rw [ht, if_pos (by omega)]
    congr 1
    omega
  · have ht : (hexDigitChar d).toNat = 87 + d := by rw [hexDigitChar_toNat d h, if_neg hd]
    unfold hexCharVal
    rw [ht, if_neg (by omega), if_pos (by omega)]
    congr 1
    omega

theorem isJsonWs_false (c : Char) (h1 : c.toNat ≠ 32) (h2 : c.toNat ≠ 9)
    (h3 : c.toNat ≠ 10) (h4 : c.toNat ≠ 13) : isJsonWs c = false := by
  unfold isJsonWs
  have e1 : (c = ' ') = False := by
    simp only [char_eq_iff_toNat, eq_iff_iff, iff_false]
    exact h1
  have e2 : (c = Char.ofNat 9) = False := by
    simp only [char_eq_iff_toNat, eq_iff_iff, iff_false]
    intro hx
    rw [charToNat_ofNat 9 (by omega)] at hx
    exact h2 hx
  have e3 : (c = Char.ofNat 10) = False := by
    simp only [char_eq_iff_toNat, eq_iff_iff, iff_false]
    intro hx
    rw [charToNat_ofNat 10 (by omega)] at hx
    exact h3 hx
  have e4 : (c = Char.ofNat 13) = False := by
    simp only [char_eq_iff_toNat, eq_iff_iff, iff_false]
    intro hx
    rw [charToNat_ofNat 13 (by omega)] at hx
    exact h4 hx
  simp [e1, e2, e3, e4]

theorem skipWs_cons (c : Char) (l : List Char) (h : isJsonWs c = false) :
    skipWs (c :: l) = c :: l := by
  simp [skipWs, h]

theorem decDigitsVal_append_digit (l : List Nat) (d : Nat) :
    decDigitsVal (l ++ [d]) = decDigitsVal l * 10 + d := by
  unfold decDigitsVal
  rw [List.foldl_append]
  rfl

theorem natToDecDigitsAux_val (f : Nat) : ∀ n, n ≤ f →
    decDigitsVal (natToDecDigitsAux f n) = n := by
  induction f with
  | zero =>
    intro n hn
    interval_cases n
    rfl
  | succ f ih =>
    intro n hn
    rcases Nat.eq_zero_or_pos n with h0 | h0
    · subst h0; rfl
    · have hrw : natToDecDigitsAux (f + 1) n = natToDecDigitsAux f (n / 10) ++ [n % 10] := by
        rcases n with _ | m
        · omega
        · rfl
      rw [hrw, decDigitsVal_append_digit, ih (n / 10) (by omega)]
      omega

theorem natToDecDigitsAux_lt (f : Nat) : ∀ n, ∀ d ∈ natToDecDigitsAux f n, d < 10 := by
  induction f with
  | zero => intro n d hd; simp [natToDecDigitsAux] at hd
  | succ f ih =>
    intro n d hd
    rcases n with _ | m
    · simp [natToDecDigitsAux] at hd
    · rw [show natToDecDigitsAux (f + 1) (m + 1)
          = natToDecDigitsAux f ((m + 1) / 10) ++ [(m + 1) % 10] from rfl] at hd
      rcases List.mem_append.mp hd with h | h
      · exact ih _ _ h
      · simp at h; omega

theorem natToDecDigitsAux_head (f : Nat) : ∀ n, 1 ≤ n → n ≤ f →
    ∃ d ds, natToDecDigitsAux f n = d :: ds ∧ d ≠ 0 := by
  induction f with
  | zero => intro n h1 h2; omega
  | succ f ih =>
    intro n h1 h2
    have hrw : natToDecDigitsAux (f + 1) n = natToDecDigitsAux f (n / 10) ++ [n % 10] := by
      rcases n with _ | m
      · omega
      · rfl
    rcases Nat.lt_or_ge n 10 with h10 | h10
    · have hz : n / 10 = 0 := by omega
      refine ⟨n % 10, [], ?_, by omega⟩
      rw [hrw, hz]
      have haux : natToDecDigitsAux f 0 = [] := by cases f <;> rfl
      rw [haux, List.nil_append]
    · obtain ⟨d, ds, hds, hd0⟩ := ih (n / 10) (by omega) (by omega)
      exact ⟨d, ds ++ [n % 10], by rw [hrw, hds]; rfl, hd0⟩

theorem numLeadOk_natDigits (n : Nat) (h1 : 1 ≤ n) :
    numLeadOk (natToDecDigits n) = true := by
  obtain ⟨d, ds, hds, hd0⟩ := natToDecDigitsAux_head n n h1 le_rfl
  rw [natToDecDigits, hds]
  cases ds with
  | nil => rfl
  | cons e es => simp [numLeadOk, hd0]

theorem isDigitChar_decDigitChar (d : Nat) (h : d < 10) :
    isDigitChar (decDigitChar d) = true := by
  simp [isDigitChar, decDigitChar_toNat d h]
  omega

theorem parseDigitsRun_append (ds : List Nat) (rest : List Char)
    (hd : ∀ d ∈ ds, d < 10) (hb : numBoundary rest = true) :
    parseDigitsRun (ds.map decDigitChar ++ rest) = (ds, rest) := by
  induction ds with
  | nil =>
    cases rest with
    | nil => rfl
    | cons c cs =>
      simp only [numBoundary, Bool.not_eq_eq_eq_not, Bool.not_true, Bool.or_eq_false_iff] at hb
      simp [parseDigitsRun, hb.1.1]
  | cons d ds ih =>
    have hdd := hd d (by simp)
    have ihh := ih (fun x hx => hd x (by simp [hx]))
    have harg : (decDigitChar d).toNat - 48 = d := by
      rw [decDigitChar_toNat d hdd]
      omega
    simp [parseDigitsRun, isDigitChar_decDigitChar d hdd, ihh, harg]

theorem decDigitsVal_natToDecDigits (n : Nat) :
    decDigitsVal (natToDecDigits n) = n :=
  natToDecDigitsAux_val n n le_rfl

theorem natDecChars_head (n : Nat) :
    ∃ d t, natDecChars n = decDigitChar d :: t ∧ d < 10 := by
  by_cases hn : n = 0
  · subst hn
    exact ⟨0, [], rfl, by omega⟩
  · obtain ⟨d, ds, hds, _⟩ := natToDecDigitsAux_head n n (by omega) le_rfl
    have hd10 : d < 10 := by
      apply natToDecDigitsAux_lt n n
      rw [hds]
      simp
    refine ⟨d, ds.map decDigitChar, ?_, hd10⟩
    rw [natDecChars, if_neg hn, natToDecDigits, hds, List.map_cons]

theorem natDecChars_digits (n : Nat) : ∀ c ∈ natDecChars n, ∃ d, d < 10 ∧ c = decDigitChar d := by
  intro c hc
  unfold natDecChars at hc
  split_ifs at hc
  · simp at hc
    exact ⟨0, by omega, hc⟩
  · obtain ⟨d, hdm, hdc⟩ := List.mem_map.mp hc
    exact ⟨d, natToDecDigitsAux_lt n n d hdm, hdc.symm⟩

/-- Round trip of the integral-number grammar. -/
theorem parseNumberFrom_int (i : Int) (rest : List Char)
    (hb : numBoundary rest = true) :
    parseNumberFrom (intDecChars i ++ rest) = some (.num i, rest) := by
  have hnat : ∀ m : Nat, parseDigitsRun (natDecChars m ++ rest)
      = ((if m = 0 then [0] else natToDecDigits m), rest) := by
    intro m
    by_cases hm : m = 0
    · subst hm
      rw [if_pos rfl]
      exact parseDigitsRun_append [0] rest (by simp) hb
    · rw [if_neg hm, natDecChars, if_neg hm]
      exact parseDigitsRun_append _ rest (natToDecDigitsAux_lt m m) hb
  have hlead : ∀ m : Nat, numLeadOk (if m = 0 then [0] else natToDecDigits m) = true := by
    intro m
    by_cases hm : m = 0
    · rw [if_pos hm]; rfl
    · rw [if_neg hm]; exact numLeadOk_natDigits m (by omega)
  have hval : ∀ m : Nat, decDigitsVal (if m = 0 then [0] else natToDecDigits m) = m := by
    intro m
    by_cases hm : m = 0
    · rw [if_pos hm, hm]; rfl
    · rw [if_neg hm]; exact decDigitsVal_natToDecDigits m
  by_cases hneg : i < 0
  · rw [intDecChars, if_pos hneg, List.cons_append]
    simp only [parseNumberFrom]
    rw [if_pos trivial]
    simp only [hnat i.natAbs, hlead i.natAbs, hb, Bool.and_self, if_true, hval i.natAbs]
    have hcast : -(Int.ofNat i.natAbs) = i := by
      rw [Int.ofNat_eq_natCast]
      omega
    rw [hcast]
  · rw [intDecChars, if_neg hneg]
    obtain ⟨d, t, hdt, hd10⟩ := natDecChars_head i.natAbs
    have hcm : decDigitChar d ≠ Char.ofNat 45 := by
      intro he
      have hcv := congrArg Char.toNat he
      rw [decDigitChar_toNat d hd10, charToNat_ofNat 45 (by omega)] at hcv
      omega
    rw [hdt, List.cons_append]
    simp only [parseNumberFrom]
    rw [if_neg hcm, ← List.cons_append, ← hdt]
    simp only [hnat i.natAbs, hlead i.natAbs, hb, Bool.and_self, if_true, hval i.natAbs]
    have hcast : Int.ofNat i.natAbs = i := by
      rw [Int.ofNat_eq_natCast]
      omega
    rw [hcast]

/-! ### Round trip of the JSON codec: strings -/

theorem hex4val_00 (x y : Char) (dx dy : Nat)
    (hx : hexCharVal x = some dx) (hy : hexCharVal y = some dy) :
    hex4val '0' '0' x y = some (dx * 16 + dy) := by
  unfold hex4val
  rw [hx, hy]
  show some ((((0 : Nat) * 16 + 0) * 16 + dx) * 16 + dy) = some (dx * 16 + dy)
  congr 1
  omega

theorem parseEscape_u00 (x y : Char) (dx dy : Nat) (tail : List Char)
    (hx : hexCharVal x = some dx) (hy : hexCharVal y = some dy)
    (hdx : dx < 2) (hdy : dy < 16) :
    parseEscape ('u' :: '0' :: '0' :: x :: y :: tail)
      = some (Char.ofNat (dx * 16 + dy), tail) := by
  simp only [parseEscape]
  rw [hex4val_00 x y dx dy hx hy, if_pos trivial, Option.some_bind]
  rw [if_neg (by decide), if_neg (by decide), if_neg (by decide), if_neg (by decide),
    if_neg (by decide), if_neg (by decide)]
  rw [if_neg (show ¬(55296 ≤ dx * 16 + dy ∧ dx * 16 + dy < 56320) by omega)]
  rw [if_neg (show ¬(56320 ≤ dx * 16 + dy ∧ dx * 16 + dy < 57344) by omega)]
  rw [if_neg (by decide), if_neg (by decide)]

theorem escapeCharChars_length_pos (c : Char) : 1 ≤ (escapeCharChars c).length := by
  unfold escapeCharChars
  split_ifs <;> simp

theorem stringifyStringBody_length (l : List Char) :
    l.length ≤ (stringifyStringBody l).length := by
  induction l with
  | nil => simp [stringifyStringBody]
  | cons c cs ih =>
    have := escapeCharChars_length_pos c
    simp only [stringifyStringBody, List.length_append, List.length_cons]
    omega

theorem parseStringBodyAux_stringify : ∀ l rest f, l.length + 1 ≤ f →
    parseStringBodyAux f (stringifyStringBody l ++ Char.ofNat 34 :: rest) = some (l, rest) := by
  intro l
  induction l with
  | nil =>
    intro rest f hf
    rcases f with _ | g
    · omega
    · show parseStringBodyAux (g + 1) (Char.ofNat 34 :: rest) = _
      simp only [parseStringBodyAux]
      rfl
  | cons c cs ih =>
    intro rest f hf
    rcases f with _ | g
    · omega
    have ihg := ih rest g (by simp at hf; omega)
    by_cases h1 : c = Char.ofNat 34
    · subst h1
      have he : stringifyStringBody (Char.ofNat 34 :: cs) ++ Char.ofNat 34 :: rest
          = Char.ofNat 92 :: Char.ofNat 34 ::
            (stringifyStringBody cs ++ Char.ofNat 34 :: rest) := rfl
      rw [he]
      simp only [parseStringBodyAux]
      rw [show parseEscape (Char.ofNat 34 :: (stringifyStringBody cs ++ Char.ofNat 34 :: rest))
          = some (Char.ofNat 34, stringifyStringBody cs ++ Char.ofNat 34 :: rest) from rfl]
      rw [if_neg (by decide)]
      show (parseStringBodyAux g _).map _ = _
      rw [ihg]
      rfl
    · by_cases h2 : c = Char.ofNat 92
      · subst h2
        have he : stringifyStringBody (Char.ofNat 92 :: cs) ++ Char.ofNat 34 :: rest
            = Char.ofNat 92 :: Char.ofNat 92 ::
              (stringifyStringBody cs ++ Char.ofNat 34 :: rest) := rfl
        rw [he]
        simp only [parseStringBodyAux]
        rw [show parseEscape (Char.ofNat 92 :: (stringifyStringBody cs ++ Char.ofNat 34 :: rest))
            = some (Char.ofNat 92, stringifyStringBody cs ++ Char.ofNat 34 :: rest) from rfl]
        rw [if_neg (by decide)]
        show (parseStringBodyAux g _).map _ = _
        rw [ihg]
        rfl
      · by_cases h3 : c = Char.ofNat 8
        · subst h3
          have he : stringifyStringBody (Char.ofNat 8 :: cs) ++ Char.ofNat 34 :: rest
              = Char.ofNat 92 :: 'b' ::
                (stringifyStringBody cs ++ Char.ofNat 34 :: rest) := rfl
          rw [he]
          simp only [parseStringBodyAux]
          rw [show parseEscape ('b' :: (stringifyStringBody cs ++ Char.ofNat 34 :: rest))
              = some (Char.ofNat 8, stringifyStringBody cs ++ Char.ofNat 34 :: rest) from rfl]
          rw [if_neg (by decide)]
          show (parseStringBodyAux g _).map _ = _
          rw [ihg]
          rfl
        · by_cases h4 : c = Char.ofNat 12
          · subst h4
            have he : stringifyStringBody (Char.ofNat 12 :: cs) ++ Char.ofNat 34 :: rest
                = Char.ofNat 92 :: 'f' ::
                  (stringifyStringBody cs ++ Char.ofNat 34 :: rest) := rfl
            rw [he]
            simp only [parseStringBodyAux]
            rw [show parseEscape ('f' :: (stringifyStringBody cs ++ Char.ofNat 34 :: rest))
                = some (Char.ofNat 12, stringifyStringBody cs ++ Char.ofNat 34 :: rest) from rfl]
            rw [if_neg (by decide)]
            show (parseStringBodyAux g _).map _ = _
            rw [ihg]
            rfl
          · by_cases h5 : c = Char.ofNat 10
            · subst h5
              have he : stringifyStringBody (Char.ofNat 10 :: cs) ++ Char.ofNat 34 :: rest
                  = Char.ofNat 92 :: 'n' ::
                    (stringifyStringBody cs ++ Char.ofNat 34 :: rest) := rfl
              rw [he]
              simp only [parseStringBodyAux]
              rw [show parseEscape ('n' :: (stringifyStringBody cs ++ Char.ofNat 34 :: rest))
                  = some (Char.ofNat 10, stringifyStringBody cs ++ Char.ofNat 34 :: rest) from rfl]
              rw [if_neg (by decide)]
              show (parseStringBodyAux g _).map _ = _
              rw [ihg]
              rfl
            · by_cases h6 : c = Char.ofNat 13
              · subst h6
                have he : stringifyStringBody (Char.ofNat 13 :: cs) ++ Char.ofNat 34 :: rest
                    = Char.ofNat 92 :: 'r' ::
                      (stringifyStringBody cs ++ Char.ofNat 34 :: rest) := rfl
                rw [he]
                simp only [parseStringBodyAux]
                rw [show parseEscape ('r' :: (stringifyStringBody cs ++ Char.ofNat 34 :: rest))
                    = some (Char.ofNat 13, stringifyStringBody cs ++ Char.ofNat 34 :: rest)
                    from rfl]
                rw [if_neg (by decide)]
                show (parseStringBodyAux g _).map _ = _
                rw [ihg]
                rfl
              · by_cases h7 : c = Char.ofNat 9
                · subst h7
                  have he : stringifyStringBody (Char.ofNat 9 :: cs) ++ Char.ofNat 34 :: rest
                      = Char.ofNat 92 :: 't' ::
                        (stringifyStringBody cs ++ Char.ofNat 34 :: rest) := rfl
                  rw [he]
                  simp only [parseStringBodyAux]
                  rw [show parseEscape ('t' :: (stringifyStringBody cs ++ Char.ofNat 34 :: rest))
                      = some (Char.ofNat 9, stringifyStringBody cs ++ Char.ofNat 34 :: rest)
                      from rfl]
                  rw [if_neg (by decide)]
                  show (parseStringBodyAux g _).map _ = _
                  rw [ihg]
                  rfl
                · by_cases h8 : c.toNat < 32
                  · have he : stringifyStringBody (c :: cs) ++ Char.ofNat 34 :: rest
                        = Char.ofNat 92 :: 'u' :: '0' :: '0' ::
                          hexDigitChar (c.toNat / 16) :: hexDigitChar (c.toNat % 16) ::
                          (stringifyStringBody cs ++ Char.ofNat 34 :: rest) := by
                      show (escapeCharChars c ++ stringifyStringBody cs) ++ _ = _
                      rw [escapeCharChars, if_neg h1, if_neg h2, if_neg h3, if_neg h4,
                        if_neg h5, if_neg h6, if_neg h7, if_pos h8]
                      rfl
                    rw [he]
                    simp only [parseStringBodyAux]
                    rw [parseEscape_u00 _ _ (c.toNat / 16) (c.toNat % 16) _
                      (hexCharVal_hexDigitChar _ (by omega))
                      (hexCharVal_hexDigitChar _ (by omega)) (by omega) (by omega)]
                    rw [if_neg (by decide)]
                    show (parseStringBodyAux g _).map
                      (fun p => (Char.ofNat (c.toNat / 16 * 16 + c.toNat % 16) :: p.1, p.2)) = _
                    rw [ihg]
                    have hc : c.toNat / 16 * 16 + c.toNat % 16 = c.toNat := by omega
                    rw [hc, charOfNat_toNat]
                    rfl
                  · have he : stringifyStringBody (c :: cs) ++ Char.ofNat 34 :: rest
                        = c :: (stringifyStringBody cs ++ Char.ofNat 34 :: rest) := by
                      show (escapeCharChars c ++ stringifyStringBody cs) ++ _ = _
                      rw [escapeCharChars, if_neg h1, if_neg h2, if_neg h3, if_neg h4,
                        if_neg h5, if_neg h6, if_neg h7, if_neg h8]
                      rfl
                    rw [he]
                    simp only [parseStringBodyAux]
                    rw [if_neg h1, if_neg h2, if_neg h8, ihg]
                    rfl

/-- Round trip of JSON string literals: parsing the serialised body of any
string recovers exactly its characters. -/
theorem parseStringBody_stringify (l rest : List Char) :
    parseStringBody (stringifyStringBody l ++ Char.ofNat 34 :: rest) = some (l, rest) := by
  apply parseStringBodyAux_stringify
  have h1 := stringifyStringBody_length l
  simp only [List.length_append, List.length_cons]
  omega

/-! ### Round trip of the JSON codec: values -/

theorem jsonSize_pos (v : Json) : 1 ≤ jsonSize v := by
  cases v <;> simp [jsonSize]

theorem jsonSizeList_cons_pos (x : Json) (xs : List Json) :
    1 ≤ jsonSizeList (x :: xs) := by
  simp only [jsonSizeList]
  omega

theorem jsonSizeObj_cons_pos (m : String × Json) (ms : List (String × Json)) :
    1 ≤ jsonSizeObj (m :: ms) := by
  rcases m with ⟨k, v⟩
  simp only [jsonSizeObj]
  omega

/-- The first character of a serialised JSON value is never whitespace and
never a closing bracket. -/
theorem stringifyChars_head (v : Json) : ∃ c t, stringifyChars v = c :: t ∧
    isJsonWs c = false ∧ c ≠ ']' := by
  cases v with
  | null => exact ⟨'n', _, rfl, by decide, by decide⟩
  | bool b =>
    cases b with
    | false => exact ⟨'f', _, rfl, by decide, by decide⟩
    | true => exact ⟨'t', _, rfl, by decide, by decide⟩
  | num i =>
    by_cases hi : i < 0
    · refine ⟨Char.ofNat 45, natDecChars i.natAbs, ?_, by decide, by decide⟩
      show intDecChars i = _
      rw [intDecChars, if_pos hi]
    · obtain ⟨d, t, hdt, hd10⟩ := natDecChars_head i.natAbs
      refine ⟨decDigitChar d, t, ?_, ?_, ?_⟩
      · show intDecChars i = _
        rw [intDecChars, if_neg hi, hdt]
      · apply isJsonWs_false <;> rw [decDigitChar_toNat d hd10] <;> omega
      · intro he
        have hcv := congrArg Char.toNat he
        rw [decDigitChar_toNat d hd10] at hcv
        have : (']' : Char).toNat = 93 := rfl
        omega
  | str s => exact ⟨Char.ofNat 34, _, rfl, by decide, by decide⟩
  | arr items => exact ⟨'[', _, rfl, by decide, by decide⟩
  | obj ms => exact ⟨Char.ofNat 123, _, rfl, by decide, by decide⟩

theorem decDigitChar_ne (d : Nat) (hd : d < 10) (c : Char)
    (hc : ¬(48 ≤ c.toNat ∧ c.toNat ≤ 57)) : decDigitChar d ≠ c := by
  intro he
  have hcv := congrArg Char.toNat he
  rw [decDigitChar_toNat d hd] at hcv
  omega

theorem parseValueAux_num (f : Nat) (i : Int) (rest : List Char)
    (hb : numBoundary rest = true) :
    parseValueAux (f + 1) (intDecChars i ++ rest) = some (.num i, rest) := by
  by_cases hi : i < 0
  · have he : intDecChars i ++ rest = Char.ofNat 45 :: (natDecChars i.natAbs ++ rest) := by
      rw [intDecChars, if_pos hi]
      rfl
    rw [he]
    simp only [parseValueAux]
    rw [skipWs_cons _ _ (by decide)]
    dsimp only
    rw [if_neg (by decide), if_neg (by decide), if_neg (by decide), if_neg (by decide),
      if_neg (by decide), if_neg (by decide), if_pos (by decide)]
    rw [show Char.ofNat 45 :: (natDecChars i.natAbs ++ rest) = intDecChars i ++ rest
      from he.symm]
    exact parseNumberFrom_int i rest hb
  · obtain ⟨d, t, hdt, hd10⟩ := natDecChars_head i.natAbs
    have he : intDecChars i ++ rest = decDigitChar d :: (t ++ rest) := by
      rw [intDecChars, if_neg hi, hdt]
      rfl
    rw [he]
    simp only [parseValueAux]
    rw [skipWs_cons _ _ (by apply isJsonWs_false <;> rw [decDigitChar_toNat d hd10] <;> omega)]
    dsimp only
    rw [if_neg (decDigitChar_ne d hd10 'n' (by decide)),
      if_neg (decDigitChar_ne d hd10 't' (by decide)),
      if_neg (decDigitChar_ne d hd10 'f' (by decide)),
      if_neg (decDigitChar_ne d hd10 (Char.ofNat 34) (by decide)),
      if_neg (decDigitChar_ne d hd10 '[' (by decide)),
      if_neg (decDigitChar_ne d hd10 (Char.ofNat 123) (by decide)),
      if_pos (by simp [isDigitChar_decDigitChar d hd10])]
    rw [show decDigitChar d :: (t ++ rest) = intDecChars i ++ rest from he.symm]
    exact parseNumberFrom_int i rest hb

/-- Round trip of the JSON codec, by induction on the node count: parsing a
serialised value (or nonempty item/member list) with sufficient fuel recovers
it exactly, leaving the tail untouched. -/
theorem parse_stringify_main : ∀ N : Nat,
    (∀ v, jsonSize v ≤ N → ∀ f rest, jsonSize v ≤ f → numBoundary rest = true →
      parseValueAux f (stringifyChars v ++ rest) = some (v, rest)) ∧
    (∀ items : List Json, items ≠ [] → jsonSizeList items ≤ N →
      ∀ f rest, jsonSizeList items ≤ f →
      parseArrayItems f (stringifyArr items ++ ']' :: rest) = some (items, rest)) ∧
    (∀ ms : List (String × Json), ms ≠ [] → jsonSizeObj ms ≤ N →
      ∀ f rest, jsonSizeObj ms ≤ f →
      parseObjMembers f (stringifyObj ms ++ Char.ofNat 125 :: rest) = some (ms, rest)) := by
  intro N
  induction N with
  | zero =>
    refine ⟨fun v hv => absurd (le_trans (jsonSize_pos v) hv) (by decide),
      fun items hne hs => ?_, fun ms hne hs => ?_⟩
    · cases items with
      | nil => exact absurd rfl hne
      | cons x xs => exact absurd (le_trans (jsonSizeList_cons_pos x xs) hs) (by decide)
    · cases ms with
      | nil => exact absurd rfl hne
      | cons m ms2 => exact absurd (le_trans (jsonSizeObj_cons_pos m ms2) hs) (by decide)
  | succ N ih =>
    obtain ⟨ih1, ih2, ih3⟩ := ih
    refine ⟨?_, ?_, ?_⟩
    · intro v hv f rest hf hb
      rcases f with _ | g
      · exact absurd (le_trans (jsonSize_pos v) hf) (by decide)
      cases v with
      | null =>
        have he : stringifyChars Json.null ++ rest = 'n' :: 'u' :: 'l' :: 'l' :: rest := rfl
        rw [he]
        simp only [parseValueAux]
        rw [skipWs_cons _ _ (by decide)]
        dsimp only
        rw [if_pos rfl, if_pos (show 'u' = 'u' ∧ 'l' = 'l' ∧ 'l' = 'l' from ⟨rfl, rfl, rfl⟩)]
      | bool b =>
        cases b with
        | true =>
          have he : stringifyChars (Json.bool true) ++ rest
              = 't' :: 'r' :: 'u' :: 'e' :: rest := rfl
          rw [he]
          simp only [parseValueAux]
          rw [skipWs_cons _ _ (by decide)]
          dsimp only
          rw [if_neg (by decide), if_pos rfl,
            if_pos (show 'r' = 'r' ∧ 'u' = 'u' ∧ 'e' = 'e' from ⟨rfl, rfl, rfl⟩)]
        | false =>
          have he : stringifyChars (Json.bool false) ++ rest
              = 'f' :: 'a' :: 'l' :: 's' :: 'e' :: rest := rfl
          rw [he]
          simp only [parseValueAux]
          rw [skipWs_cons _ _ (by decide)]
          dsimp only
          rw [if_neg (by decide), if_neg (by decide), if_pos rfl,
            if_pos (show 'a' = 'a' ∧ 'l' = 'l' ∧ 's' = 's' ∧ 'e' = 'e'
              from ⟨rfl, rfl, rfl, rfl⟩)]
      | num i =>
        have he : stringifyChars (Json.num i) = intDecChars i := rfl
        rw [he]
        exact parseValueAux_num g i rest hb
      | str s =>
        have he : stringifyChars (Json.str s) ++ rest
            = Char.ofNat 34 :: (stringifyStringBody s.data ++ Char.ofNat 34 :: rest) := by
          show (Char.ofNat 34 :: (stringifyStringBody s.data ++ [Char.ofNat 34])) ++ rest = _
          simp
        rw [he]
        simp only [parseValueAux]
        rw [skipWs_cons _ _ (by decide)]
        dsimp only
        rw [if_neg (by decide), if_neg (by decide), if_neg (by decide), if_pos rfl]
        rw [parseStringBody_stringify s.data rest]
      | arr items =>
        cases items with
        | nil =>
          have he : stringifyChars (Json.arr []) ++ rest = '[' :: ']' :: rest := rfl
          rw [he]
          simp only [parseValueAux]
          rw [skipWs_cons _ _ (by decide)]
          dsimp only
          rw [if_neg (by decide), if_neg (by decide), if_neg (by decide), if_neg (by decide),
            if_pos rfl]
          rw [skipWs_cons _ _ (by decide)]
          dsimp only
          rw [if_pos rfl]
        | cons x xs =>
          obtain ⟨c0, t0, hx0, hws0, hb0⟩ := stringifyChars_head x
          have harr : ∃ tail, stringifyArr (x :: xs) ++ ']' :: rest = c0 :: tail := by
            cases xs with
            | nil =>
              refine ⟨t0 ++ ']' :: rest, ?_⟩
              show stringifyChars x ++ ']' :: rest = _
              rw [hx0]
              rfl
            | cons y ys =>
              refine ⟨t0 ++ ',' :: (stringifyArr (y :: ys) ++ ']' :: rest), ?_⟩
              show (stringifyChars x ++ ',' :: stringifyArr (y :: ys)) ++ ']' :: rest = _
              rw [hx0]
              simp
          obtain ⟨tail, htail⟩ := harr
          have he : stringifyChars (Json.arr (x :: xs)) ++ rest
              = '[' :: (stringifyArr (x :: xs) ++ ']' :: rest) := by
            show ('[' :: (stringifyArr (x :: xs) ++ [']'])) ++ rest = _
            simp
          rw [he]
          simp only [parseValueAux]
          rw [skipWs_cons _ _ (by decide)]
          dsimp only
          rw [if_neg (by decide), if_neg (by decide), if_neg (by decide), if_neg (by decide),
            if_pos rfl]
          rw [htail, skipWs_cons _ _ hws0]
          dsimp only
          rw [if_neg hb0, ← htail]
          simp only [jsonSize] at hv hf
          rw [ih2 (x :: xs) (by simp) (by omega) g rest (by omega)]
      | obj ms =>
        cases ms with
        | nil =>
          have he : stringifyChars (Json.obj []) ++ rest
              = Char.ofNat 123 :: Char.ofNat 125 :: rest := rfl
          rw [he]
          simp only [parseValueAux]
          rw [skipWs_cons _ _ (by decide)]
          dsimp only
          rw [if_neg (by decide), if_neg (by decide), if_neg (by decide), if_neg (by decide),
            if_neg (by decide), if_pos rfl]
          rw [skipWs_cons _ _ (by decide)]
          dsimp only
          rw [if_pos rfl]
        | cons m ms2 =>
          have he : stringifyChars (Json.obj (m :: ms2)) ++ rest
              = Char.ofNat 123 :: (stringifyObj (m :: ms2) ++ Char.ofNat 125 :: rest) := by
            show (Char.ofNat 123 :: (stringifyObj (m :: ms2) ++ [Char.ofNat 125])) ++ rest = _
            simp
          have hobjhead : ∃ tail, stringifyObj (m :: ms2) ++ Char.ofNat 125 :: rest
              = Char.ofNat 34 :: tail := by
            rcases m with ⟨k, v⟩
            cases ms2 with
            | nil =>
              refine ⟨(stringifyStringBody k.data ++ [Char.ofNat 34])
                ++ ':' :: stringifyChars v ++ Char.ofNat 125 :: rest, ?_⟩
              show (stringifyStringChars k ++ ':' :: stringifyChars v)
                ++ Char.ofNat 125 :: rest = _
              rw [stringifyStringChars]
              simp
            | cons m2 ms3 =>
              refine ⟨(stringifyStringBody k.data ++ [Char.ofNat 34])
                ++ ':' :: stringifyChars v ++ ',' :: stringifyObj (m2 :: ms3)
                ++ Char.ofNat 125 :: rest, ?_⟩
              show (stringifyStringChars k ++ ':' :: stringifyChars v
                ++ ',' :: stringifyObj (m2 :: ms3)) ++ Char.ofNat 125 :: rest = _
              rw [stringifyStringChars]
              simp
          obtain ⟨tail, htail⟩ := hobjhead
          rw [he]
          simp only [parseValueAux]
          rw [skipWs_cons _ _ (by decide)]
          dsimp only
          rw [if_neg (by decide), if_neg (by decide), if_neg (by decide), if_neg (by decide),
            if_neg (by decide), if_pos rfl]
          rw [htail, skipWs_cons _ _ (by decide)]
          dsimp only
          rw [if_neg (by decide), ← htail]
          simp only [jsonSize] at hv hf
          rw [ih3 (m :: ms2) (by simp) (by omega) g rest (by omega)]
    · intro items hne hsize f rest hfuel
      cases items with
      | nil => exact absurd rfl hne
      | cons x xs =>
        rcases f with _ | g
        · exact absurd (le_trans (jsonSizeList_cons_pos x xs) hfuel) (by decide)
        simp only [jsonSizeList] at hsize hfuel
        have hxN : jsonSize x ≤ N := by
          have := jsonSize_pos x
          omega
        have hxg : jsonSize x ≤ g := by omega
        simp only [parseArrayItems]
        cases xs with
        | nil =>
          have he : stringifyArr [x] ++ ']' :: rest = stringifyChars x ++ ']' :: rest := rfl
          rw [he, ih1 x hxN g (']' :: rest) hxg rfl]
          dsimp only
          rw [skipWs_cons _ _ (by decide)]
          dsimp only
          rw [if_neg (by decide), if_pos rfl]
        | cons y ys =>
          have he : stringifyArr (x :: y :: ys) ++ ']' :: rest
              = stringifyChars x ++ ',' :: (stringifyArr (y :: ys) ++ ']' :: rest) := by
            show (stringifyChars x ++ ',' :: stringifyArr (y :: ys)) ++ ']' :: rest = _
            simp
          rw [he, ih1 x hxN g (',' :: (stringifyArr (y :: ys) ++ ']' :: rest)) hxg rfl]
          dsimp only
          rw [skipWs_cons _ _ (by decide)]
          dsimp only
          rw [if_pos rfl]
          have hys : jsonSizeList (y :: ys) ≤ N := by
            have := jsonSize_pos x
            omega
          rw [ih2 (y :: ys) (by simp) hys g rest (by omega)]
          rfl
    · intro ms hne hsize f rest hfuel
      cases ms with
      | nil => exact absurd rfl hne
      | cons m ms2 =>
        rcases m with ⟨k, v⟩
        rcases f with _ | g
        · exact absurd (le_trans (jsonSizeObj_cons_pos (k, v) ms2) hfuel) (by decide)
        simp only [jsonSizeObj] at hsize hfuel
        have hvN : jsonSize v ≤ N := by
          have := jsonSize_pos v
          omega
        have hvg : jsonSize v ≤ g := by omega
        simp only [parseObjMembers]
        cases ms2 with
        | nil =>
          have he : stringifyObj [(k, v)] ++ Char.ofNat 125 :: rest
              = Char.ofNat 34 :: (stringifyStringBody k.data
                ++ Char.ofNat 34 :: (':' :: (stringifyChars v ++ Char.ofNat 125 :: rest))) := by
            show (stringifyStringChars k ++ ':' :: stringifyChars v)
              ++ Char.ofNat 125 :: rest = _
            rw [stringifyStringChars]
            simp
          rw [he, skipWs_cons _ _ (by decide)]
          dsimp only
          rw [if_pos rfl]
          rw [parseStringBody_stringify k.data
            (':' :: (stringifyChars v ++ Char.ofNat 125 :: rest))]
          dsimp only
          rw [skipWs_cons _ _ (by decide)]
          dsimp only
          rw [if_pos rfl, ih1 v hvN g (Char.ofNat 125 :: rest) hvg rfl]
          dsimp only
          rw [skipWs_cons _ _ (by decide)]
          dsimp only
          rw [if_neg (by decide), if_pos rfl]
        | cons m2 ms3 =>
          have he : stringifyObj ((k, v) :: m2 :: ms3) ++ Char.ofNat 125 :: rest
              = Char.ofNat 34 :: (stringifyStringBody k.data
                ++ Char.ofNat 34 :: (':' :: (stringifyChars v
                  ++ ',' :: (stringifyObj (m2 :: ms3) ++ Char.ofNat 125 :: rest)))) := by
            show (stringifyStringChars k ++ ':' :: stringifyChars v
              ++ ',' :: stringifyObj (m2 :: ms3)) ++ Char.ofNat 125 :: rest = _
            rw [stringifyStringChars]
            simp
          rw [he, skipWs_cons _ _ (by decide)]
          dsimp only
          rw [if_pos rfl]
          rw [parseStringBody_stringify k.data
            (':' :: (stringifyChars v ++ ',' :: (stringifyObj (m2 :: ms3)
              ++ Char.ofNat 125 :: rest)))]
          dsimp only
          rw [skipWs_cons _ _ (by decide)]
          dsimp only
          rw [if_pos rfl,
            ih1 v hvN g (',' :: (stringifyObj (m2 :: ms3) ++ Char.ofNat 125 :: rest)) hvg rfl]
          dsimp only
          rw [skipWs_cons _ _ (by decide)]
          dsimp only
          rw [if_pos rfl]
          have hms3 : jsonSizeObj (m2 :: ms3) ≤ N := by
            have := jsonSize_pos v
            omega
          rw [ih3 (m2 :: ms3) (by simp) hms3 g rest (by omega)]
          rfl

theorem jsonSize_le_len : ∀ N : Nat,
    (∀ v, jsonSize v ≤ N → jsonSize v ≤ (stringifyChars v).length) ∧
    (∀ items : List Json, items ≠ [] → jsonSizeList items ≤ N →
      jsonSizeList items ≤ (stringifyArr items).length + 1) ∧
    (∀ ms : List (String × Json), ms ≠ [] → jsonSizeObj ms ≤ N →
      jsonSizeObj ms ≤ (stringifyObj ms).length + 1) := by
  intro N
  induction N with
  | zero =>
    refine ⟨fun v hv => absurd (le_trans (jsonSize_pos v) hv) (by decide),
      fun items hne hs => ?_, fun ms hne hs => ?_⟩
    · cases items with
      | nil => exact absurd rfl hne
      | cons x xs => exact absurd (le_trans (jsonSizeList_cons_pos x xs) hs) (by decide)
    · cases ms with
      | nil => exact absurd rfl hne
      | cons m ms2 => exact absurd (le_trans (jsonSizeObj_cons_pos m ms2) hs) (by decide)
  | succ N ih =>
    obtain ⟨ih1, ih2, ih3⟩ := ih
    refine ⟨?_, ?_, ?_⟩
    · intro v hv
      cases v with
      | null => decide
      | bool b => cases b <;> decide
      | num i =>
        have he : stringifyChars (Json.num i) = intDecChars i := rfl
        have hlen : 1 ≤ (intDecChars i).length := by
          by_cases hi : i < 0
          · rw [intDecChars, if_pos hi]
            simp
          · obtain ⟨d, t, hdt, _⟩ := natDecChars_head i.natAbs
            rw [intDecChars, if_neg hi, hdt]
            simp
        rw [he]
        exact le_trans (by simp [jsonSize]) hlen
      | str s =>
        have he : stringifyChars (Json.str s)
            = Char.ofNat 34 :: (stringifyStringBody s.data ++ [Char.ofNat 34]) := rfl
        rw [he]
        simp [jsonSize]
      | arr items =>
        cases items with
        | nil => decide
        | cons x xs =>
          have he : stringifyChars (Json.arr (x :: xs))
              = '[' :: (stringifyArr (x :: xs) ++ [']']) := rfl
          simp only [jsonSize] at hv ⊢
          have h2 := ih2 (x :: xs) (by simp) (by omega)
          rw [he]
          simp only [List.length_cons, List.length_append, List.length_singleton]
          omega
      | obj ms =>
        cases ms with
        | nil => decide
        | cons m ms2 =>
          have he : stringifyChars (Json.obj (m :: ms2))
              = Char.ofNat 123 :: (stringifyObj (m :: ms2) ++ [Char.ofNat 125]) := rfl
          simp only [jsonSize] at hv ⊢
          have h3 := ih3 (m :: ms2) (by simp) (by omega)
          rw [he]
          simp only [List.length_cons, List.length_append, List.length_singleton]
          omega
    · intro items hne hs
      cases items with
      | nil => exact absurd rfl hne
      | cons x xs =>
        simp only [jsonSizeList] at hs ⊢
        have hxN : jsonSize x ≤ N := by
          have := jsonSize_pos x
          omega
        have h1 := ih1 x hxN
        cases xs with
        | nil =>
          have he : stringifyArr [x] = stringifyChars x := rfl
          rw [he]
          simp only [jsonSizeList]
          omega
        | cons y ys =>
          have he : stringifyArr (x :: y :: ys)
              = stringifyChars x ++ ',' :: stringifyArr (y :: ys) := rfl
          have h2 := ih2 (y :: ys) (by simp) (by
            have := jsonSize_pos x
            omega)
          rw [he]
          simp only [List.length_append, List.length_cons]
          omega
    · intro ms hne hs
      cases ms with
      | nil => exact absurd rfl hne
      | cons m ms2 =>
        rcases m with ⟨k, v⟩
        simp only [jsonSizeObj] at hs ⊢
        have hvN : jsonSize v ≤ N := by
          have := jsonSize_pos v
          omega
        have h1 := ih1 v hvN
        cases ms2 with
        | nil =>
          have he : stringifyObj [(k, v)] = stringifyStringChars k ++ ':' :: stringifyChars v :=
            rfl
          have hz : jsonSizeObj ([] : List (String × Json)) = 0 := rfl
          rw [he]
          simp only [List.length_append, List.length_cons]
          omega
        | cons m2 ms3 =>
          have he : stringifyObj ((k, v) :: m2 :: ms3)
              = stringifyStringChars k ++ ':' :: stringifyChars v
                ++ ',' :: stringifyObj (m2 :: ms3) := rfl
          have h3 := ih3 (m2 :: ms3) (by simp) (by
            have := jsonSize_pos v
            omega)
          rw [he]
          simp only [List.length_append, List.length_cons]
          omega

theorem stringifyChars_ne_nil (v : Json) : stringifyChars v ≠ [] := by
  obtain ⟨c, t, hct, _, _⟩ := stringifyChars_head v
  rw [hct]
  simp

/-- `JSON.parse` is a left inverse of `JSON.stringify` on the JSON value
model. -/
theorem jsonParse_stringify (v : Json) : jsonParse (jsonStringify v) = some v := by
  have hlen : jsonSize v ≤ (stringifyChars v).length :=
    (jsonSize_le_len (jsonSize v)).1 v le_rfl
  have hmain := (parse_stringify_main (jsonSize v)).1 v le_rfl
    ((stringifyChars v).length + 1) [] (by omega) rfl
  rw [List.append_nil] at hmain
  simp only [jsonParse, jsonStringify]
  rw [hmain]
  rfl

/-! ### Codec correctness: block shape, slot range, short-string round trip -/

theorem bytesBEtoNat_lt (l : List Nat) (h : ∀ b ∈ l, b < 256) :
    bytesBEtoNat l < 256 ^ l.length := by
  induction l with
  | nil => simp [bytesBEtoNat]
  | cons b t ih =>
    have hb : b < 256 := h b (List.mem_cons_self b t)
    have ht := ih fun x hx => h x (List.mem_cons_of_mem _ hx)
    simp only [bytesBEtoNat, List.length_cons, pow_succ]
    calc b * 256 ^ t.length + bytesBEtoNat t
        < b * 256 ^ t.length + 256 ^ t.length := by omega
      _ = (b + 1) * 256 ^ t.length := by ring
      _ ≤ 256 * 256 ^ t.length := Nat.mul_le_mul_right _ (by omega)
      _ = 256 ^ t.length * 256 := by ring

theorem bytesBEtoNat_replicate_zero_append (k : Nat) (l : List Nat) :
    bytesBEtoNat (List.replicate k 0 ++ l) = bytesBEtoNat l := by
  induction k with
  | zero => simp
  | succ k ih => simp [List.replicate_succ, bytesBEtoNat, ih]

/-- Byte strings of equal length and equal big-endian value are equal. -/
theorem bytesBEtoNat_inj (a b : List Nat) (hlen : a.length = b.length)
    (ha : ∀ x ∈ a, x < 256) (hb : ∀ x ∈ b, x < 256)
    (h : bytesBEtoNat a = bytesBEtoNat b) : a = b := by
  induction a generalizing b with
  | nil =>
    cases b with
    | nil => rfl
    | cons y ys => simp at hlen
  | cons x xs ih =>
    cases b with
    | nil => simp at hlen
    | cons y ys =>
      have hl : xs.length = ys.length := by simpa using hlen
      have hxa := bytesBEtoNat_lt xs fun z hz => ha z (List.mem_cons_of_mem _ hz)
      have hyb := bytesBEtoNat_lt ys fun z hz => hb z (List.mem_cons_of_mem _ hz)
      simp only [bytesBEtoNat] at h
      rw [hl] at h hxa
      have hpos : 0 < 256 ^ ys.length := pow_pos (by omega) _
      have hx : x = y := by
        have d1 : (x * 256 ^ ys.length + bytesBEtoNat xs) / 256 ^ ys.length = x := by
          rw [Nat.mul_comm x, Nat.mul_add_div hpos, Nat.div_eq_of_lt hxa, Nat.add_zero]
        have d2 : (y * 256 ^ ys.length + bytesBEtoNat ys) / 256 ^ ys.length = y := by
          rw [Nat.mul_comm y, Nat.mul_add_div hpos, Nat.div_eq_of_lt hyb, Nat.add_zero]
        rw [← d1, ← d2, h]
      subst hx
      have ht : bytesBEtoNat xs = bytesBEtoNat ys := Nat.add_left_cancel h
      have := ih ys hl (fun z hz => ha z (List.mem_cons_of_mem _ hz))
        (fun z hz => hb z (List.mem_cons_of_mem _ hz)) ht
      rw [this]

theorem uintToFe_ok_spec (n : Int) (b : List Nat) (h : uintToFe n = .ok b) :
    b.length = 32 ∧ (∀ x ∈ b, x < 256) ∧ bytesBEtoNat b < BN254_MODULUS := by
  unfold uintToFe at h
  by_cases hc : n < 0 ∨ (BN254_MODULUS : Int) ≤ n
  · rw [if_pos hc] at h; cases h
  · rw [if_neg hc] at h
    injection h with h; subst h
    have h2 : n.natAbs < BN254_MODULUS := by omega
    have h256 : n.natAbs < 2 ^ 256 :=
      lt_of_lt_of_le h2 (by norm_num [BN254_MODULUS])
    obtain ⟨l1, l2, l3⟩ := bigintToBytes32_spec _ h256
    exact ⟨l1, l2, by rw [l3]; exact h2⟩

theorem replicate32_zero_spec :
    (List.replicate 32 (0 : Nat)).length = 32 ∧
    (∀ x ∈ List.replicate 32 (0 : Nat), x < 256) ∧
    bytesBEtoNat (List.replicate 32 (0 : Nat)) < BN254_MODULUS := by
  refine ⟨by simp, ?_, ?_⟩
  · intro x hx
    have := List.eq_of_mem_replicate hx
    omega
  · have h0 : bytesBEtoNat (List.replicate 32 (0 : Nat)) = 0 := by
      have h := bytesBEtoNat_replicate_zero_append 32 []
      simp only [List.append_nil, bytesBEtoNat] at h
      exact h
    rw [h0]
    norm_num [BN254_MODULUS]

/-- Every slot `encodeField` successfully produces is 32 bytes of values
below 256 denoting a big-endian integer below the BN254 modulus. -/
theorem encodeField_ok_spec (d : FieldDef) (v : JsValue) (b : List Nat)
    (h : encodeField d v = .ok b) :
    b.length = 32 ∧ (∀ x ∈ b, x < 256) ∧ bytesBEtoNat b < BN254_MODULUS := by
  unfold encodeField at h
  by_cases hs : v = JsValue.nullV ∨ v = JsValue.str ""
  · rw [if_pos hs] at h
    injection h with h; subst h
    exact replicate32_zero_spec
  · rw [if_neg hs] at h
    obtain ⟨name, enc⟩ := d
    cases enc with
    | shortString =>
      simp only at h
      unfold shortStringToFe at h
      by_cases hlen : (utf8Bytes (jsToString v)).length > 31
      · rw [if_pos hlen] at h; cases h
      · rw [if_neg hlen] at h
        injection h with h; subst h
        have hval := bytesBEtoNat_lt _ (utf8Bytes_lt (jsToString v))
        have h248 : bytesBEtoNat (utf8Bytes (jsToString v)) < 2 ^ 248 := by
          refine lt_of_lt_of_le hval ?_
          calc (256 : Nat) ^ (utf8Bytes (jsToString v)).length
              ≤ 256 ^ 31 := Nat.pow_le_pow_right (by omega) (by omega)
            _ = 2 ^ 248 := by norm_num
        have h256 : bytesBEtoNat (utf8Bytes (jsToString v)) < 2 ^ 256 :=
          lt_of_lt_of_le h248 (by norm_num)
        obtain ⟨l1, l2, l3⟩ := bigintToBytes32_spec _ h256
        refine ⟨l1, l2, ?_⟩
        rw [l3]
        exact lt_of_lt_of_le h248 (by norm_num [BN254_MODULUS])
    | sha256 =>
      simp only at h
      injection h with h; subst h
      unfold sha256ToFe
      have hp : 0 < BN254_MODULUS := by norm_num [BN254_MODULUS]
      have hm := Nat.mod_lt (bytesBEtoNat (SHA256.sha256Bytes (utf8Bytes (jsToString v)))) hp
      have h256 : bytesBEtoNat (SHA256.sha256Bytes (utf8Bytes (jsToString v)))
          % BN254_MODULUS < 2 ^ 256 :=
        lt_of_lt_of_le hm (by norm_num [BN254_MODULUS])
      obtain ⟨l1, l2, l3⟩ := bigintToBytes32_spec _ h256
      exact ⟨l1, l2, by rw [l3]; exact hm⟩
    | uint =>
      simp only at h
      cases v with
      | nullV => exact absurd (Or.inl rfl) hs
      | str s =>
        have h2 : (match jsBigIntOfString s with
          | Except.ok n => uintToFe n
          | Except.error e => Except.error e) = Except.ok b := h
        cases hbi : jsBigIntOfString s with
        | error e => rw [hbi] at h2; cases h2
        | ok n =>
          rw [hbi] at h2
          exact uintToFe_ok_spec n b h2
      | num n => exact uintToFe_ok_spec n b h
      | bigint n => exact uintToFe_ok_spec n b h

theorem encodeFieldElements_length (schema : List FieldDef) :
    ∀ values out, encodeFieldElements schema values = .ok out →
      out.length = schema.length * 32 := by
  induction schema with
  | nil =>
    intro values out h
    injection h with h; subst h; simp
  | cons d rest ih =>
    intro values out h
    simp only [encodeFieldElements] at h
    cases h1 : encodeField d (lookupValue values d.name) with
    | error e => rw [h1] at h; cases h
    | ok b =>
      rw [h1] at h
      cases h2 : encodeFieldElements rest values with
      | error e => rw [h2] at h; cases h
      | ok bs =>
        rw [h2] at h
        injection h with h; subst h
        have hb := (encodeField_ok_spec _ _ _ h1).1
        have hr := ih values bs h2
        simp [List.length_append, hb, hr, List.length_cons]
        ring

theorem drop_append_of_length {α : Type} (a b : List α) (k : Nat) :
    (a ++ b).drop (a.length + k) = b.drop k := by
  induction a with
  | nil => simp
  | cons x xs ih =>
    have harith : (x :: xs).length + k = (xs.length + k) + 1 := by
      simp [List.length_cons]; omega
    rw [harith, List.cons_append, List.drop_succ_cons, ih]

/-- Slot extraction: the `i`-th 32-byte window of a successful encoding is
the successful `encodeField` output for the `i`-th schema entry. -/
theorem encodeFieldElements_slot (schema : List FieldDef) :
    ∀ values out, encodeFieldElements schema values = .ok out →
      ∀ i d, schema[i]? = some d →
        ∃ b, encodeField d (lookupValue values d.name) = .ok b ∧
          (out.drop (32 * i)).take 32 = b := by
  induction schema with
  | nil =>
    intro values out h i d hd
    simp at hd
  | cons d0 rest ih =>
    intro values out h i d hd
    simp only [encodeFieldElements] at h
    cases h1 : encodeField d0 (lookupValue values d0.name) with
    | error e => rw [h1] at h; cases h
    | ok b0 =>
      rw [h1] at h
      cases h2 : encodeFieldElements rest values with
      | error e => rw [h2] at h; cases h
      | ok bs =>
        rw [h2] at h
        injection h with h; subst h
        have hb0 := (encodeField_ok_spec _ _ _ h1).1
        cases i with
        | zero =>
          have hd0 : d = d0 := by simpa using hd.symm
          subst hd0
          refine ⟨b0, h1, ?_⟩
          rw [Nat.mul_zero, List.drop_zero, ← hb0, List.take_left]
        | succ i =>
          have hd' : rest[i]? = some d := by simpa using hd
          obtain ⟨b, hb, hslot⟩ := ih values bs h2 i d hd'
          refine ⟨b, hb, ?_⟩
          have harith : 32 * (i + 1) = b0.length + 32 * i := by rw [hb0]; ring
          rw [harith, drop_append_of_length]
          exact hslot

/-- The `i`-th decoded field, written directly in terms of the `i`-th 32-byte
window of the raw block. -/
theorem decodeFieldsGo_get (schema : List FieldDef) :
    ∀ (raw : List Nat) (i : Nat) (d : FieldDef), schema[i]? = some d →
      (decodeFieldsGo schema raw)[i]? = some (d.name,
        ⟨(if isZero ((raw.drop (32 * i)).take 32) = true then ""
          else
            match d.encoding with
            | .shortString => recoverShortString ((raw.drop (32 * i)).take 32)
            | .sha256 => bytesToHexString ((raw.drop (32 * i)).take 32)
            | .uint => String.mk (natDecChars (readUint ((raw.drop (32 * i)).take 32)))),
         isZero ((raw.drop (32 * i)).take 32),
         bytesToHexString ((raw.drop (32 * i)).take 32)⟩) := by
  induction schema with
  | nil =>
    intro raw i d hd
    simp at hd
  | cons d0 rest ih =>
    intro raw i d hd
    cases i with
    | zero =>
      have hd0 : d = d0 := by simpa using hd.symm
      subst hd0
      simp only [decodeFieldsGo, Nat.mul_zero, List.drop_zero]
      rw [List.getElem?_cons_zero]
    | succ i =>
      have hd' : rest[i]? = some d := by simpa using hd
      have e : raw.drop (32 * (i + 1)) = (raw.drop 32).drop (32 * i) := by
        rw [List.drop_drop]
        congr 1
        ring
      rw [e]
      simp only [decodeFieldsGo]
      rw [List.getElem?_cons_succ]
      exact ih (raw.drop 32) i d hd'

theorem dropWhile_zeros (k : Nat) (b0 : Nat) (t : List Nat) (h : b0 ≠ 0) :
    (List.replicate k 0 ++ b0 :: t).dropWhile (fun b => b == 0) = b0 :: t := by
  induction k with
  | zero => simp [List.dropWhile_cons, h]
  | succ k ih => simp [List.replicate_succ, List.dropWhile_cons, ih]

/-- C4: every successful `encodeFieldElements(S, V)` block is exactly
`32 · |S|` bytes, and each 32-byte slot read big-endian is strictly below the
BN254 modulus. -/
theorem encode_block_shape_C4 (schema : List FieldDef)
    (values : List (String × JsValue)) (out : List Nat)
    (h : encodeFieldElements schema values = .ok out) :
    out.length = schema.length * 32 ∧
    ∀ i d, schema[i]? = some d →
      bytesBEtoNat ((out.drop (32 * i)).take 32) < BN254_MODULUS := by
  refine ⟨encodeFieldElements_length schema values out h, ?_⟩
  intro i d hd
  obtain ⟨b, hb, hslot⟩ := encodeFieldElements_slot schema values out h i d hd
  rw [hslot]
  exact (encodeField_ok_spec _ _ _ hb).2.2

set_option maxRecDepth 20000 in
theorem encode_block_shape_C4_witness :
    (List.replicate 160 (0 : Nat)).length = VIES_SCHEMA.length * 32 ∧
    ∀ i d, VIES_SCHEMA[i]? = some d →
      bytesBEtoNat (((List.replicate 160 (0 : Nat)).drop (32 * i)).take 32)
        < BN254_MODULUS :=
  encode_block_shape_C4 VIES_SCHEMA [] (List.replicate 160 0) (by rfl)

/-- C5 (amended): the short-string round trip holds for every `shortString`
field whose value has at most 31 UTF-8 bytes and whose first UTF-8 byte is
not zero (the empty string included): the decoder recovers the string from
the encoder's slot.  Strings whose UTF-8 form starts with a zero byte are not
recovered — see the counterexample. -/
theorem shortString_roundtrip_amended_C5 (schema : List FieldDef)
    (values : List (String × JsValue)) (out : List Nat)
    (fields : List (String × DecodedField))
    (h1 : encodeFieldElements schema values = .ok out)
    (h2 : decodeFieldElements schema out = .ok fields)
    (i : Nat) (d : FieldDef) (s : String)
    (hd : schema[i]? = some d) (henc : d.encoding = .shortString)
    (hv : lookupValue values d.name = JsValue.str s)
    (hlen : (utf8Bytes s).length ≤ 31)
    (hhead : (utf8Bytes s).head? ≠ some 0) :
    ∃ fd, fields[i]? = some (d.name, fd) ∧ fd.value = s := by
  have hfields : fields = decodeFieldsGo schema out := by
    unfold decodeFieldElements at h2
    by_cases hlc : out.length ≠ schema.length * 32
    · rw [if_pos hlc] at h2; cases h2
    · rw [if_neg hlc] at h2
      injection h2 with h2
      exact h2.symm
  obtain ⟨b, hb, hslot⟩ := encodeFieldElements_slot schema values out h1 i d hd
  rw [hv] at hb
  by_cases hse : s = ""
  · subst hse
    have hb' : b = List.replicate 32 0 := by
      unfold encodeField at hb
      rw [if_pos (Or.inr rfl)] at hb
      injection hb with hb
      exact hb.symm
    have hz : isZero ((out.drop (32 * i)).take 32) = true := by
      rw [hslot, hb']; decide
    refine ⟨_, by rw [hfields]; exact decodeFieldsGo_get schema out i d hd, ?_⟩
    dsimp only
    rw [if_pos hz]
  · have hb' : b = bigintToBytes32 (bytesBEtoNat (utf8Bytes s)) := by
      unfold encodeField at hb
      rw [if_neg ?hcond] at hb
      case hcond =>
        intro hc
        rcases hc with hc | hc
        · cases hc
        · exact hse (by injection hc)
      simp only [henc] at hb
      unfold shortStringToFe at hb
      rw [if_neg (show ¬ (utf8Bytes (jsToString (JsValue.str s))).length > 31 by
        simp only [jsToString]; omega)] at hb
      injection hb with hb
      exact hb.symm
    have hblt : ∀ x ∈ utf8Bytes s, x < 256 := utf8Bytes_lt s
    have hval := bytesBEtoNat_lt _ hblt
    have h256 : bytesBEtoNat (utf8Bytes s) < 2 ^ 256 := by
      refine lt_of_lt_of_le hval ?_
      calc (256 : Nat) ^ (utf8Bytes s).length ≤ 256 ^ 31 :=
            Nat.pow_le_pow_right (by omega) hlen
        _ ≤ 2 ^ 256 := by norm_num
    obtain ⟨l1, l2, l3⟩ := bigintToBytes32_spec _ h256
    have hpad : bigintToBytes32 (bytesBEtoNat (utf8Bytes s)) =
        List.replicate (32 - (utf8Bytes s).length) 0 ++ utf8Bytes s := by
      apply bytesBEtoNat_inj
      · rw [l1]
        simp [List.length_append, List.length_replicate]
        omega
      · exact l2
      · intro x hx
        rcases List.mem_append.mp hx with hx | hx
        · have := List.eq_of_mem_replicate hx; omega
        · exact hblt x hx
      · rw [l3, bytesBEtoNat_replicate_zero_append]
    have hslot' : (out.drop (32 * i)).take 32 =
        List.replicate (32 - (utf8Bytes s).length) 0 ++ utf8Bytes s := by
      rw [hslot, hb', hpad]
    obtain ⟨b0, btail, hcons⟩ : ∃ b0 btail, utf8Bytes s = b0 :: btail := by
      cases hbv : utf8Bytes s with
      | nil =>
        have hrt := utf8DecodeString_bytes s
        rw [hbv] at hrt
        exact absurd hrt.symm hse
      | cons b0 bt => exact ⟨b0, bt, rfl⟩
    have hb0 : b0 ≠ 0 := by
      intro h0
      apply hhead
      rw [hcons, h0]
      rfl
    have hz : isZero ((out.drop (32 * i)).take 32) = false := by
      rw [hslot', hcons]
      have hbe : (b0 == 0) = false := by simpa using hb0
      simp [isZero, List.all_append, hbe]
    refine ⟨_, by rw [hfields]; exact decodeFieldsGo_get schema out i d hd, ?_⟩
    dsimp only
    rw [if_neg (by simp [hz])]
    simp only [henc]
    rw [recoverShortString, hslot', hcons, dropWhile_zeros _ _ _ hb0, ← hcons,
      utf8DecodeString_bytes]

set_option maxRecDepth 20000 in
theorem shortString_roundtrip_amended_C5_witness :
    ∃ fd, (decodeFieldsGo [⟨"val", FieldEncoding.shortString⟩]
        (List.replicate 31 0 ++ [65]))[0]? = some ("val", fd) ∧ fd.value = "A" :=
  shortString_roundtrip_amended_C5 [⟨"val", FieldEncoding.shortString⟩]
    [("val", JsValue.str "A")] (List.replicate 31 0 ++ [65])
    (decodeFieldsGo [⟨"val", FieldEncoding.shortString⟩] (List.replicate 31 0 ++ [65]))
    (by rfl) (by rfl) 0 ⟨"val", FieldEncoding.shortString⟩ "A"
    rfl rfl rfl (by decide) (by decide)

set_option maxRecDepth 20000 in
/-- C5 (counterexample): for the two-character string `"\x00A"` (a NUL byte
then `A`, two UTF-8 bytes, well inside the 31-byte bound) the decoder does
not recover the encoded string: the leading NUL is absorbed by the slot
padding and stripping, and decoding yields `"A"`. -/
theorem shortString_roundtrip_C5_counterexample :
    (utf8Bytes (String.mk (Char.ofNat 0 :: 'A' :: []))).length ≤ 31 ∧
    (∃ out,
      encodeFieldElements [⟨"val", FieldEncoding.shortString⟩]
        [("val", JsValue.str (String.mk (Char.ofNat 0 :: 'A' :: [])))] = .ok out ∧
      decodeFieldElements [⟨"val", FieldEncoding.shortString⟩] out =
        .ok [("val", ⟨"A", false,
          "0000000000000000000000000000000000000000000000000000000000000041"⟩)]) ∧
    "A" ≠ String.mk (Char.ofNat 0 :: 'A' :: []) := by
  refine ⟨by decide, ⟨List.replicate 30 0 ++ [0, 65], by rfl, ?_⟩, by decide⟩
  rfl

/-- C9: for a `uint` schema field, the value `0` encodes to the same 32 zero
bytes as a `null`, an empty-string, and a missing input (the documented
sentinel collision). -/
theorem uint_zero_sentinel_C9 (name : String) :
    encodeField ⟨name, FieldEncoding.uint⟩ (JsValue.num 0) = .ok (List.replicate 32 0) ∧
    encodeField ⟨name, FieldEncoding.uint⟩ JsValue.nullV = .ok (List.replicate 32 0) ∧
    encodeField ⟨name, FieldEncoding.uint⟩ (JsValue.str "") = .ok (List.replicate 32 0) ∧
    encodeFieldElements [⟨name, FieldEncoding.uint⟩] [] = .ok (List.replicate 32 0) :=
  ⟨rfl, rfl, rfl, rfl⟩

theorem utf8Bytes_ne_nil (s : String) (h : s.data ≠ []) : utf8Bytes s ≠ [] := by
  cases hd : s.data with
  | nil => exact absurd hd h
  | cons c cs =>
    rw [utf8Bytes, hd]
    simp only [utf8EncodeList]
    intro hnil
    have hl := congrArg List.length hnil
    have hc := utf8EncodeChar_length_pos c
    rw [List.length_append, List.length_nil] at hl
    omega

theorem writeUInt32BE_spec (n : Nat) (h : n < 4294967296) :
    (writeUInt32BE n).length = 4 ∧ bytesBEtoNat (writeUInt32BE n) = n := by
  refine ⟨rfl, ?_⟩
  simp only [writeUInt32BE, bytesBEtoNat, List.length_cons, List.length_nil]
  norm_num
  omega

theorem readExact_append (a b : List Nat) :
    readExact (a ++ b) a.length = .ok (a, b) := by
  unfold readExact
  rw [if_neg (by simp [List.length_append])]
  rw [List.take_left, List.drop_left]

/-- C6: framing round trip.  A successful `writeMessage` frame, whatever follows it
on the stream, reads back as exactly the written value with the rest of
the stream untouched; and `writeMessage` succeeds precisely when the
serialised payload is at most 16 MiB (the size check happens before anything
is written: a `.error` result writes no bytes in this model, mirroring the
source's throw-before-write). -/
theorem framing_roundtrip_C6 (x : Json) (rest : List Nat) :
    (∀ frame, writeMessage x = .ok frame →
      readMessage (frame ++ rest) = .ok (x, rest)) ∧
    ((writeMessage x).isOk ↔ (utf8Bytes (jsonStringify x)).length ≤ MAX_MESSAGE_SIZE) := by
  constructor
  · intro frame hf
    unfold writeMessage at hf
    by_cases hbig : (utf8Bytes (jsonStringify x)).length > MAX_MESSAGE_SIZE
    · rw [if_pos hbig] at hf; cases hf
    · rw [if_neg hbig] at hf
      injection hf with hf
      subst hf
      have hlt32 : (utf8Bytes (jsonStringify x)).length < 4294967296 := by
        have hm : MAX_MESSAGE_SIZE = 16777216 := rfl
        omega
      obtain ⟨hw4, hwval⟩ := writeUInt32BE_spec (utf8Bytes (jsonStringify x)).length hlt32
      have happ : (writeUInt32BE (utf8Bytes (jsonStringify x)).length
            ++ utf8Bytes (jsonStringify x)) ++ rest
          = writeUInt32BE (utf8Bytes (jsonStringify x)).length
            ++ (utf8Bytes (jsonStringify x) ++ rest) := by
        simp [List.append_assoc]
      have e1 : readExact (writeUInt32BE (utf8Bytes (jsonStringify x)).length
            ++ (utf8Bytes (jsonStringify x) ++ rest)) 4
          = .ok (writeUInt32BE (utf8Bytes (jsonStringify x)).length,
              utf8Bytes (jsonStringify x) ++ rest) := by
        have := readExact_append (writeUInt32BE (utf8Bytes (jsonStringify x)).length)
          (utf8Bytes (jsonStringify x) ++ rest)
        rw [hw4] at this
        exact this
      have hne : utf8Bytes (jsonStringify x) ≠ [] :=
        utf8Bytes_ne_nil _ (stringifyChars_ne_nil x)
      have h0 : (utf8Bytes (jsonStringify x)).length ≠ 0 := by
        intro hz
        exact hne (List.length_eq_zero.mp hz)
      unfold readMessage
      rw [happ]
      simp only [e1]
      rw [hwval, if_neg h0, if_neg (by omega : ¬ (utf8Bytes (jsonStringify x)).length > MAX_MESSAGE_SIZE)]
      simp only [readExact_append]
      rw [utf8DecodeString_bytes, jsonParse_stringify]
  · unfold writeMessage
    by_cases hbig : (utf8Bytes (jsonStringify x)).length > MAX_MESSAGE_SIZE
    · rw [if_pos hbig]
      simp only [Except.isOk]
      constructor
      · intro h; cases h
      · intro h; omega
    · rw [if_neg hbig]
      simp only [Except.isOk]
      constructor
      · intro h; omega
      · intro h; rfl

theorem framing_roundtrip_C6_witness :
    readMessage ((writeUInt32BE (utf8Bytes (jsonStringify (Json.obj [("a", Json.num 1)]))).length
        ++ utf8Bytes (jsonStringify (Json.obj [("a", Json.num 1)]))) ++ [9])
      = .ok (Json.obj [("a", Json.num 1)], [9]) :=
  (framing_roundtrip_C6 (Json.obj [("a", Json.num 1)]) [9]).1
    (writeUInt32BE (utf8Bytes (jsonStringify (Json.obj [("a", Json.num 1)]))).length
      ++ utf8Bytes (jsonStringify (Json.obj [("a", Json.num 1)]))) (by rfl)

/-- C1: every attestation document `attest` returns carries the three
specified hashes — `responseHash` is the hex SHA-256 of the raw body,
`requestHash` of `url ∥ "|" ∥ method ∥ "|" ∥ JSON.stringify(headers)`, and
`nonce` of `responseHash ∥ apiEndpoint ∥ decimal(timestamp)` — together with
the echoed endpoint, method and timestamp. -/
theorem attest_hashes_C1 (nsm : String → Except String NsmResult)
    (timestamp : Nat) (uuid : String) (apiEndpoint apiMethod rawBody url : String)
    (requestHeaders : List (String × String)) (doc : AttestationDocument)
    (h : attest nsm timestamp uuid apiEndpoint apiMethod rawBody url requestHeaders
        = .ok doc) :
    doc.responseHash = sha256Hex rawBody ∧
    doc.requestHash
      = sha256Hex (url ++ "|" ++ apiMethod ++ "|" ++ jsonStringifyStrMap requestHeaders) ∧
    doc.nonce = sha256Hex (sha256Hex rawBody ++ apiEndpoint ++ decimalString timestamp) ∧
    doc.apiEndpoint = apiEndpoint ∧ doc.apiMethod = apiMethod ∧
    doc.timestamp = timestamp ∧ doc.attestationId = "enc-" ++ uuid := by
  simp only [attest] at h
  cases hn : nsm (sha256Hex (sha256Hex rawBody ++ apiEndpoint ++ decimalString timestamp)) with
  | error e => rw [hn] at h; cases h
  | ok r =>
    rw [hn] at h
    injection h with h
    subst h
    exact ⟨rfl, rfl, rfl, rfl, rfl, rfl, rfl⟩

theorem attest_hashes_C1_witness :
    (AttestationDocument.mk ("enc-" ++ "u") (sha256Hex "body")
        (sha256Hex ("https://h/p" ++ "|" ++ "GET" ++ "|"
          ++ jsonStringifyStrMap [("a", "b")]))
        "h/p" "GET" 7 "nsmdoc" ⟨"p0", "p1", "p2"⟩
        (sha256Hex (sha256Hex "body" ++ "h/p" ++ decimalString 7))).responseHash
      = sha256Hex "body" ∧
    (AttestationDocument.mk ("enc-" ++ "u") (sha256Hex "body")
        (sha256Hex ("https://h/p" ++ "|" ++ "GET" ++ "|"
          ++ jsonStringifyStrMap [("a", "b")]))
        "h/p" "GET" 7 "nsmdoc" ⟨"p0", "p1", "p2"⟩
        (sha256Hex (sha256Hex "body" ++ "h/p" ++ decimalString 7))).requestHash
      = sha256Hex ("https://h/p" ++ "|" ++ "GET" ++ "|"
          ++ jsonStringifyStrMap [("a", "b")]) ∧
    (AttestationDocument.mk ("enc-" ++ "u") (sha256Hex "body")
        (sha256Hex ("https://h/p" ++ "|" ++ "GET" ++ "|"
          ++ jsonStringifyStrMap [("a", "b")]))
        "h/p" "GET" 7 "nsmdoc" ⟨"p0", "p1", "p2"⟩
        (sha256Hex (sha256Hex "body" ++ "h/p" ++ decimalString 7))).nonce
      = sha256Hex (sha256Hex "body" ++ "h/p" ++ decimalString 7) ∧
    (AttestationDocument.mk ("enc-" ++ "u") (sha256Hex "body")
        (sha256Hex ("https://h/p" ++ "|" ++ "GET" ++ "|"
          ++ jsonStringifyStrMap [("a", "b")]))
        "h/p" "GET" 7 "nsmdoc" ⟨"p0", "p1", "p2"⟩
        (sha256Hex (sha256Hex "body" ++ "h/p" ++ decimalString 7))).apiEndpoint = "h/p" ∧
    (AttestationDocument.mk ("enc-" ++ "u") (sha256Hex "body")
        (sha256Hex ("https://h/p" ++ "|" ++ "GET" ++ "|"
          ++ jsonStringifyStrMap [("a", "b")]))
        "h/p" "GET" 7 "nsmdoc" ⟨"p0", "p1", "p2"⟩
        (sha256Hex (sha256Hex "body" ++ "h/p" ++ decimalString 7))).apiMethod = "GET" ∧
    (AttestationDocument.mk ("enc-" ++ "u") (sha256Hex "body")
        (sha256Hex ("https://h/p" ++ "|" ++ "GET" ++ "|"
          ++ jsonStringifyStrMap [("a", "b")]))
        "h/p" "GET" 7 "nsmdoc" ⟨"p0", "p1", "p2"⟩
        (sha256Hex (sha256Hex "body" ++ "h/p" ++ decimalString 7))).timestamp = 7 ∧
    (AttestationDocument.mk ("enc-" ++ "u") (sha256Hex "body")
        (sha256Hex ("https://h/p" ++ "|" ++ "GET" ++ "|"
          ++ jsonStringifyStrMap [("a", "b")]))
        "h/p" "GET" 7 "nsmdoc" ⟨"p0", "p1", "p2"⟩
        (sha256Hex (sha256Hex "body" ++ "h/p" ++ decimalString 7))).attestationId
      = "enc-" ++ "u" :=
  attest_hashes_C1 (fun _ => .ok ⟨"nsmdoc", ⟨"p0", "p1", "p2"⟩⟩) 7 "u" "h/p" "GET"
    "body" "https://h/p" [("a", "b")] _ (by rfl)

/-- C2: a request whose URL hostname matches no allowlist entry (exact,
case-sensitive comparison) is answered with a 403 failure envelope carrying
the `Host not allowed` error, no attestation, and zero upstream fetches. -/
theorem allowlist_reject_C2 (fetch : Fetch) (att : Attestor)
    (config : EnclaveConfig) (request : EnclaveRequest) (u : UrlParts)
    (hu : parseUrl request.url = some u)
    (hmiss : ∀ h ∈ config.hosts, h.hostname ≠ u.hostname) :
    createRequestHandler fetch att config request =
      (⟨false, 403, [], "",
        some ("Host not allowed: " ++ u.hostname ++ ". This enclave only permits: "
          ++ joinCommaSep (config.hosts.map fun h => h.hostname)), none⟩, 0) := by
  have hfind : config.hosts.find? (fun h => h.hostname == u.hostname) = none := by
    apply List.find?_eq_none.mpr
    intro h hh
    simpa using hmiss h hh
  simp only [createRequestHandler, hu, hfind]

theorem allowlist_reject_C2_witness :
    createRequestHandler (fun _ _ _ _ _ _ => .error "unused")
      (fun _ _ _ _ _ => .error "unused")
      ⟨"vies", [⟨"ec.europa.eu", 8101⟩]⟩
      ⟨"r1", "https://evil.example.com/steal?x=1", "GET", [], none⟩ =
      (⟨false, 403, [], "",
        some ("Host not allowed: " ++ "evil.example.com"
          ++ ". This enclave only permits: "
          ++ joinCommaSep (([⟨"ec.europa.eu", 8101⟩] : List AllowedHost).map
              fun h => h.hostname)), none⟩, 0) :=
  allowlist_reject_C2 (fun _ _ _ _ _ _ => .error "unused")
    (fun _ _ _ _ _ => .error "unused")
    ⟨"vies", [⟨"ec.europa.eu", 8101⟩]⟩
    ⟨"r1", "https://evil.example.com/steal?x=1", "GET", [], none⟩
    ⟨"evil.example.com", "/steal", "?x=1"⟩ (by rfl) (by decide)

theorem lookup_isSome_mem (l : List (String × String)) (k : String)
    (h : (l.lookup k).isSome = true) : ∃ v, (k, v) ∈ l := by
  induction l with
  | nil => simp [List.lookup] at h
  | cons kv t ih =>
    by_cases hk : k = kv.1
    · exact ⟨kv.2, by rw [hk]; exact List.mem_cons_self _ _⟩
    · have hne : (k == kv.1) = false := by simpa using hk
      rw [show (kv :: t).lookup k = t.lookup k from by
        obtain ⟨a, b⟩ := kv
        simp only [List.lookup]
        simp only at hne
        rw [hne]] at h
      obtain ⟨v, hv⟩ := ih h
      exact ⟨v, List.mem_cons_of_mem _ hv⟩

theorem mem_lookup_isSome (l : List (String × String)) (kv : String × String)
    (h : kv ∈ l) : (l.lookup kv.1).isSome = true := by
  induction l with
  | nil => cases h
  | cons a t ih =>
    obtain ⟨a1, a2⟩ := a
    rcases List.mem_cons.mp h with rfl | h2
    · simp [List.lookup]
    · by_cases hka : kv.1 = a1
      · simp [List.lookup, hka]
      · have hne : (kv.1 == a1) = false := by simpa using hka
        simp only [List.lookup, hne]
        exact ih h2

/-- The assigned key holds the assigned value: every entry of
`jsSetKey obj k v` whose key is `k` has value `v`, and such an entry exists. -/
theorem jsSetKey_sets (obj : List (String × String)) (k v : String) :
    (k, v) ∈ jsSetKey obj k v ∧
    ∀ kv ∈ jsSetKey obj k v, kv.1 = k → kv.2 = v := by
  unfold jsSetKey
  by_cases hmem : (obj.lookup k).isSome = true
  · rw [if_pos hmem]
    constructor
    · obtain ⟨w, hw⟩ := lookup_isSome_mem obj k hmem
      have := List.mem_map_of_mem
        (fun kv => if kv.1 = k then (kv.1, v) else kv) hw
      simpa using this
    · intro kv hkv hk
      obtain ⟨orig, horig, hfe⟩ := List.mem_map.mp hkv
      by_cases ho : orig.1 = k
      · rw [if_pos ho] at hfe
        rw [← hfe]
      · rw [if_neg ho] at hfe
        rw [← hfe] at hk
        exact absurd hk ho
  · rw [if_neg hmem]
    constructor
    · exact List.mem_append_right _ (List.mem_cons_self _ _)
    · intro kv hkv hk
      rcases List.mem_append.mp hkv with hin | hin
      · exfalso
        apply hmem
        rw [← hk]
        exact mem_lookup_isSome obj kv hin
      · rcases List.mem_cons.mp hin with rfl | hin
        · rfl
        · cases hin

/-- Entries whose key differs from the assigned key are untouched, in both
directions. -/
theorem jsSetKey_ne (obj : List (String × String)) (k v : String)
    (kv : String × String) (hne : kv.1 ≠ k) :
    (kv ∈ jsSetKey obj k v ↔ kv ∈ obj) := by
  unfold jsSetKey
  by_cases hmem : (obj.lookup k).isSome = true
  · rw [if_pos hmem]
    constructor
    · intro h
      obtain ⟨orig, horig, hfe⟩ := List.mem_map.mp h
      by_cases ho : orig.1 = k
      · rw [if_pos ho] at hfe
        rw [← hfe] at hne
        exact absurd ho (by simpa using hne)
      · rw [if_neg ho] at hfe
        rw [← hfe]
        exact horig
    · intro h
      exact List.mem_map.mpr ⟨kv, h, by rw [if_neg hne]⟩
  · rw [if_neg hmem]
    constructor
    · intro h
      rcases List.mem_append.mp h with hin | hin
      · exact hin
      · rcases List.mem_cons.mp hin with rfl | hin
        · exact absurd rfl hne
        · cases hin
    · intro h
      exact List.mem_append_left _ h

/-- C7 (amended): the `Host`/`Connection` overlay wins for the exact-case
keys: the headers serialised by `proxyFetch`/`proxyFetchPlain` always contain
`Host: hostname` and `Connection: close`, and every entry keyed exactly
`Host` (resp. `Connection`) carries the overlay value.  A caller-supplied
header whose key differs in case (e.g. `host`) is *not* overridden and
survives alongside the overlay — see the counterexample. -/
theorem host_overlay_amended_C7 (hostname : String)
    (headers : List (String × String)) :
    ("Host", hostname) ∈ buildReqHeaders hostname headers ∧
    ("Connection", "close") ∈ buildReqHeaders hostname headers ∧
    (∀ kv ∈ buildReqHeaders hostname headers, kv.1 = "Host" → kv.2 = hostname) ∧
    (∀ kv ∈ buildReqHeaders hostname headers, kv.1 = "Connection" → kv.2 = "close") := by
  unfold buildReqHeaders
  refine ⟨?_, ?_, ?_, ?_⟩
  · exact (jsSetKey_ne (jsSetKey headers "Host" hostname) "Connection" "close"
      ("Host", hostname) (by show ("Host" : String) ≠ "Connection"; decide)).mpr
      (jsSetKey_sets headers "Host" hostname).1
  · exact (jsSetKey_sets _ "Connection" "close").1
  · intro kv hkv hk
    have hne : kv.1 ≠ "Connection" := by rw [hk]; decide
    have hin := (jsSetKey_ne (jsSetKey headers "Host" hostname) "Connection" "close"
      kv hne).mp hkv
    exact (jsSetKey_sets headers "Host" hostname).2 kv hin hk
  · intro kv hkv hk
    exact (jsSetKey_sets _ "Connection" "close").2 kv hkv hk

theorem host_overlay_amended_C7_witness :
    ("Host", "api.example.com") ∈ buildReqHeaders "api.example.com" [("host", "evil.example")] ∧
    ("Connection", "close") ∈ buildReqHeaders "api.example.com" [("host", "evil.example")] ∧
    (∀ kv ∈ buildReqHeaders "api.example.com" [("host", "evil.example")],
      kv.1 = "Host" → kv.2 = "api.example.com") ∧
    (∀ kv ∈ buildReqHeaders "api.example.com" [("host", "evil.example")],
      kv.1 = "Connection" → kv.2 = "close") :=
  host_overlay_amended_C7 "api.example.com" [("host", "evil.example")]

/-- C7 (counterexample): a caller header keyed `host` (lowercase) is neither
replaced nor removed by the overlay — the serialised request carries both a
`host: evil.example` line and the overlay's `Host: api.example.com` line, so
the claim that the upstream request can contain no Host value other than the
overlay's is false for case-variant keys. -/
theorem host_overlay_C7_counterexample :
    buildReqHeaders "api.example.com" [("host", "evil.example")]
      = [("host", "evil.example"), ("Host", "api.example.com"),
         ("Connection", "close")] ∧
    containsSubstr
      (buildHttpRequest "GET" "/" "api.example.com" [("host", "evil.example")] none)
      "host: evil.example" = true := by
  constructor
  · rfl
  · rfl

theorem indexOfCrlf_ge (l : List Nat) : ∀ (i j : Nat), indexOfCrlf l i = some j → i ≤ j := by
  induction l with
  | nil =>
    intro i j h
    cases h
  | cons b rest ih =>
    intro i j h
    cases rest with
    | nil =>
      simp only [indexOfCrlf] at h
      cases h
    | cons b2 r2 =>
      simp only [indexOfCrlf] at h
      by_cases hc : b = 13 ∧ b2 = 10
      · rw [if_pos hc] at h
        injection h with h
        omega
      · rw [if_neg hc] at h
        have := ih (i + 1) j h
        omega

theorem indexOfCrlfFrom_ge (raw : List Nat) (offset : Int) (h0 : 0 ≤ offset)
    (j : Nat) (h : indexOfCrlfFrom raw offset = some j) : offset ≤ (j : Int) := by
  simp only [indexOfCrlfFrom] at h
  rw [if_neg (by omega : ¬ offset < 0)] at h
  cases hfind : indexOfCrlf (raw.drop offset.toNat) 0 with
  | none => rw [hfind] at h; cases h
  | some i =>
    rw [hfind] at h
    injection h with h
    have h2 : i + offset.toNat = j := h
    omega

theorem jsSubarray_subset (raw : List Nat) (s e : Int) :
    ∀ x ∈ jsSubarray raw s e, x ∈ raw := by
  intro x hx
  simp only [jsSubarray] at hx
  by_cases hc : (if s < 0 then max ((raw.length : Int) + s) 0 else min s (raw.length : Int))
      < (if e < 0 then max ((raw.length : Int) + e) 0 else min e (raw.length : Int))
  · rw [if_pos hc] at hx
    exact List.mem_of_mem_drop (List.mem_of_mem_take hx)
  · rw [if_neg hc] at hx
    cases hx

theorem asciiTrim_subset (l : List Nat) : ∀ x ∈ asciiTrim l, x ∈ l := by
  intro x hx
  unfold asciiTrim at hx
  rw [List.mem_reverse] at hx
  have h1 : x ∈ (l.dropWhile isJsWsByte).reverse :=
    (List.dropWhile_sublist _).subset hx
  rw [List.mem_reverse] at h1
  exact (List.dropWhile_sublist _).subset h1

theorem jsParseIntHex_nonneg (l : List Nat) (n : Int)
    (hl : ∀ b ∈ l, b ≠ 45) (h : jsParseIntHex l = some n) : 0 ≤ n := by
  cases l with
  | nil => cases h
  | cons b r =>
    simp only [jsParseIntHex] at h
    rw [if_neg (hl b (List.mem_cons_self b r))] at h
    by_cases hb : b = 43
    · rw [if_pos hb] at h
      cases hm : parseIntHexMag (stripHexMarker r) with
      | none => rw [hm] at h; cases h
      | some m =>
        rw [hm] at h
        injection h with h
        subst h
        exact Int.natCast_nonneg m
    · rw [if_neg hb] at h
      cases hm : parseIntHexMag (stripHexMarker (b :: r)) with
      | none => rw [hm] at h; cases h
      | some m =>
        rw [hm] at h
        injection h with h
        subst h
        exact Int.natCast_nonneg m

theorem decodeChunkedStep_progress (raw : List Nat)
    (hno : ∀ b ∈ raw, b % 128 ≠ 45) (offset : Int) (h0 : 0 ≤ offset)
    (chunk : List Nat) (newOffset : Int)
    (h : decodeChunkedStep raw offset = .cont chunk newOffset) :
    offset + 5 ≤ newOffset := by
  simp only [decodeChunkedStep] at h
  cases hfind : indexOfCrlfFrom raw offset with
  | none => simp only [hfind] at h; cases h
  | some lineEnd =>
    simp only [hfind] at h
    have hnomem : ∀ b ∈ asciiTrim (asciiMask (jsSubarray raw offset lineEnd)), b ≠ 45 := by
      intro b hb
      have hmask := asciiTrim_subset _ b hb
      obtain ⟨orig, horig, hb'⟩ := List.mem_map.mp hmask
      rw [← hb']
      exact hno orig (jsSubarray_subset raw offset _ orig horig)
    cases hpi : jsParseIntHex (asciiTrim (asciiMask (jsSubarray raw offset lineEnd))) with
    | none => simp only [hpi] at h; cases h
    | some size =>
      simp only [hpi] at h
      have hpos : 0 ≤ size := jsParseIntHex_nonneg _ _ hnomem hpi
      by_cases hz : size = 0
      · rw [if_pos hz] at h; cases h
      · rw [if_neg hz] at h
        injection h with h1 h2
        have hle : offset ≤ (lineEnd : Int) := indexOfCrlfFrom_ge raw offset h0 lineEnd hfind
        omega

theorem decodeChunkedAux_total (raw : List Nat) (hno : ∀ b ∈ raw, b % 128 ≠ 45) :
    ∀ (f : Nat) (offset : Int) (acc : List Nat), 0 ≤ offset →
      (raw.length : Int) ≤ offset + 5 * f →
      ∃ out, decodeChunkedAux raw f offset acc = some out := by
  intro f
  induction f with
  | zero =>
    intro offset acc h0 hb
    simp only [decodeChunkedAux]
    rw [if_neg (by omega : ¬ offset < (raw.length : Int))]
    exact ⟨acc, rfl⟩
  | succ f ih =>
    intro offset acc h0 hb
    simp only [decodeChunkedAux]
    by_cases hg : offset < (raw.length : Int)
    · rw [if_pos hg]
      cases hs : decodeChunkedStep raw offset with
      | exit extra => exact ⟨acc ++ extra, rfl⟩
      | cont chunk newOffset =>
        have hprog := decodeChunkedStep_progress raw hno offset h0 chunk newOffset hs
        exact ih newOffset (acc ++ chunk) (by omega) (by push_cast at hb ⊢; omega)
    · rw [if_neg hg]
      exact ⟨acc, rfl⟩

/-- C10 (amended): on any input none of whose bytes reads as the ASCII minus
sign after the 7-bit `'ascii'` decode (`b % 128 ≠ 45`, ruling out negative
parsed chunk sizes), `decodeChunked` terminates within `length + 1` loop
iterations and returns a buffer — malformed size lines, non-hex size text and
truncated chunk data all just end or truncate the output, never throw.  With
a negative chunk size the loop can fail to terminate — see the
counterexample. -/
theorem decodeChunked_total_amended_C10 (raw : List Nat)
    (hno : ∀ b ∈ raw, b % 128 ≠ 45) :
    ∃ out, decodeChunked raw (raw.length + 1) = some out := by
  unfold decodeChunked
  apply decodeChunkedAux_total raw hno (raw.length + 1) 0 [] le_rfl
  push_cast
  omega

theorem decodeChunked_total_amended_C10_witness :
    ∃ out, decodeChunked [49, 13, 10, 65, 13, 10] ([49, 13, 10, 65, 13, 10].length + 1)
      = some out :=
  decodeChunked_total_amended_C10 [49, 13, 10, 65, 13, 10] (by decide)

set_option maxRecDepth 40000 in
/-- C10 (counterexample): the four-byte body `"-6\r\n"` makes the loop spin
forever — `parseInt` accepts the negative hex size `-6`, the negative chunk
end pulls the next offset back to `0`, and the loop state repeats exactly, so
`decodeChunked` never returns for this input (the JavaScript `while` loop
never exits).  The decoder is therefore not total. -/
theorem decodeChunked_C10_counterexample :
    decodeChunkedStep [45, 54, 13, 10] 0 = ChunkStep.cont [] 0 ∧
    decodeChunked [45, 54, 13, 10] 100 = none ∧
    ∀ fuel, decodeChunked [45, 54, 13, 10] fuel = none := by
  refine ⟨by decide, by decide, ?_⟩
  intro fuel
  unfold decodeChunked
  induction fuel with
  | zero => decide
  | succ f ih =>
    simp only [decodeChunkedAux]
    rw [if_pos (by decide : (0 : Int) < (([45, 54, 13, 10] : List Nat).length : Int))]
    rw [show decodeChunkedStep [45, 54, 13, 10] 0 = ChunkStep.cont [] 0 from by decide]
    simpa using ih

theorem viesFinish_ok_success {att : Attestor} {cfg : ViesHandlerConfig}
    {gb : Bool} {cc vat : String} {valid : Bool} {name : Option Json}
    {addr : Option String} {api : String} {r : EnclaveResponse}
    (h : viesFinish att cfg gb cc vat valid name addr api = .ok r) :
    r.success = true := by
  simp only [viesFinish] at h
  repeat' split at h
  all_goals try cases h
  all_goals rfl

theorem viesHandlerCore_ok_invariant {fetch : Fetch} {att : Attestor}
    {soap : SoapOracle} {cfg : ViesHandlerConfig} {request : EnclaveRequest}
    {r : EnclaveResponse} (h : viesHandlerCore fetch att soap cfg request = .ok r)
    (hs : r.success = false) : r.attestation = none ∧ r.error ≠ none := by
  simp only [viesHandlerCore] at h
  repeat' split at h
  all_goals try cases h
  all_goals try (have hsucc := viesFinish_ok_success h; rw [hsucc] at hs; simp at hs)
  all_goals try (simp at hs)
  all_goals exact ⟨rfl, by simp⟩

theorem sicaeHandlerCore_ok_invariant {fetch : Fetch} {att : Attestor}
    {p : SicaeParsers} {cfg : SicaeHandlerConfig} {request : EnclaveRequest}
    {r : EnclaveResponse} (h : sicaeHandlerCore fetch att p cfg request = .ok r)
    (hs : r.success = false) : r.attestation = none ∧ r.error ≠ none := by
  simp only [sicaeHandlerCore] at h
  repeat' split at h
  all_goals try cases h
  all_goals try (simp at hs)
  all_goals exact ⟨rfl, by simp⟩

theorem requestHandler_invariant (fetch : Fetch) (att : Attestor)
    (config : EnclaveConfig) (request : EnclaveRequest) :
    (createRequestHandler fetch att config request).1.success = false →
    (createRequestHandler fetch att config request).1.attestation = none ∧
    (createRequestHandler fetch att config request).1.error ≠ none := by
  simp only [createRequestHandler]
  repeat' split
  all_goals intro hs
  all_goals first
    | exact ⟨rfl, by simp⟩
    | simp at hs

/-- C3: every response envelope any handler can produce — the generic
handler, the VIES and SICAE custom handlers, and the accept loop's
read-failure path — satisfies the data-model invariant: `success = false`
implies the attestation field is absent and the error field is present. -/
theorem envelope_invariant_C3 :
    (∀ (fetch : Fetch) (att : Attestor) (config : EnclaveConfig)
        (request : EnclaveRequest),
      (createRequestHandler fetch att config request).1.success = false →
      (createRequestHandler fetch att config request).1.attestation = none ∧
      (createRequestHandler fetch att config request).1.error ≠ none) ∧
    (∀ (fetch : Fetch) (att : Attestor) (soap : SoapOracle)
        (cfg : ViesHandlerConfig) (request : EnclaveRequest),
      (createViesHandler fetch att soap cfg request).success = false →
      (createViesHandler fetch att soap cfg request).attestation = none ∧
      (createViesHandler fetch att soap cfg request).error ≠ none) ∧
    (∀ (fetch : Fetch) (att : Attestor) (p : SicaeParsers)
        (cfg : SicaeHandlerConfig) (request : EnclaveRequest),
      (createSicaeHandler fetch att p cfg request).success = false →
      (createSicaeHandler fetch att p cfg request).attestation = none ∧
      (createSicaeHandler fetch att p cfg request).error ≠ none) ∧
    (∀ (readResult : Except String EnclaveRequest)
        (handle : EnclaveRequest → EnclaveResponse),
      (∀ req, (handle req).success = false →
        (handle req).attestation = none ∧ (handle req).error ≠ none) →
      (connectionReply readResult handle).success = false →
      (connectionReply readResult handle).attestation = none ∧
      (connectionReply readResult handle).error ≠ none) := by
  refine ⟨requestHandler_invariant, ?_, ?_, ?_⟩
  · intro fetch att soap cfg request
    unfold createViesHandler
    cases hc : viesHandlerCore fetch att soap cfg request with
    | ok r =>
      intro hs
      exact viesHandlerCore_ok_invariant hc hs
    | error e =>
      intro hs
      exact ⟨rfl, by simp⟩
  · intro fetch att p cfg request
    unfold createSicaeHandler
    cases hc : sicaeHandlerCore fetch att p cfg request with
    | ok r =>
      intro hs
      exact sicaeHandlerCore_ok_invariant hc hs
    | error e =>
      intro hs
      exact ⟨rfl, by simp⟩
  · intro readResult handle hh
    cases readResult with
    | ok req =>
      intro hs
      exact hh req hs
    | error e =>
      intro hs
      exact ⟨rfl, by simp [connectionReply]⟩

theorem envelope_invariant_C3_witness :
    (connectionReply (.error "read failed")
      (fun _ => ⟨true, 200, [], "", none, none⟩)).attestation = none ∧
    (connectionReply (.error "read failed")
      (fun _ => ⟨true, 200, [], "", none, none⟩)).error ≠ none :=
  envelope_invariant_C3.2.2.2 (.error "read failed")
    (fun _ => ⟨true, 200, [], "", none, none⟩)
    (fun req hs => by simp at hs) (by rfl)

set_option maxRecDepth 100000 in
/-- C8: contrary to the claimed handling, a non-404 upstream status is not
turned into a 502 upstream-error failure: `parseHmrcResponse` ignores the
status entirely once the body parses as JSON, reporting `valid = true` even
for an HMRC 500 error payload, and the full GB-path handler then answers with
a `success = true`, status-200 envelope whose `x-vies-valid` header reads
`true`.  (404 → invalid and 200 → parsed-target behaviour do hold; the
deviation is every other status with a JSON body.) -/
theorem hmrc_unexpected_status_C8 :
    parseHmrcResponse (jsonStringify (Json.obj [("code", Json.str "SERVER_ERROR")])) 500
      = ⟨true, none, none⟩ ∧
    parseHmrcResponse (jsonStringify (Json.obj [("code", Json.str "SERVER_ERROR")])) 404
      = ⟨false, none, none⟩ ∧
    (createViesHandler
        (fun _ _ _ _ _ _ =>
          .ok ⟨500, [], jsonStringify (Json.obj [("code", Json.str "SERVER_ERROR")])⟩)
        (fun a m _ _ _ => .ok ⟨"id", "", "", a, m, 0, "", ⟨"", "", ""⟩, ""⟩)
        ⟨fun _ => ⟨false, none, none⟩, fun _ => none⟩
        ⟨"ec.europa.eu", 8101, "api.service.hmrc.gov.uk", 8102⟩
        ⟨"r1", "local", "POST", [],
          some (jsonStringify (Json.obj
            [("countryCode", Json.str "GB"), ("vatNumber", Json.str "123456789")]))⟩).success
      = true ∧
    (createViesHandler
        (fun _ _ _ _ _ _ =>
          .ok ⟨500, [], jsonStringify (Json.obj [("code", Json.str "SERVER_ERROR")])⟩)
        (fun a m _ _ _ => .ok ⟨"id", "", "", a, m, 0, "", ⟨"", "", ""⟩, ""⟩)
        ⟨fun _ => ⟨false, none, none⟩, fun _ => none⟩
        ⟨"ec.europa.eu", 8101, "api.service.hmrc.gov.uk", 8102⟩
        ⟨"r1", "local", "POST", [],
          some (jsonStringify (Json.obj
            [("countryCode", Json.str "GB"), ("vatNumber", Json.str "123456789")]))⟩).status
      = 200 ∧
    (createViesHandler
        (fun _ _ _ _ _ _ =>
          .ok ⟨500, [], jsonStringify (Json.obj [("code", Json.str "SERVER_ERROR")])⟩)
        (fun a m _ _ _ => .ok ⟨"id", "", "", a, m, 0, "", ⟨"", "", ""⟩, ""⟩)
        ⟨fun _ => ⟨false, none, none⟩, fun _ => none⟩
        ⟨"ec.europa.eu", 8101, "api.service.hmrc.gov.uk", 8102⟩
        ⟨"r1", "local", "POST", [],
          some (jsonStringify (Json.obj
            [("countryCode", Json.str "GB"), ("vatNumber", Json.str "123456789")]))⟩).headers.lookup
        "x-vies-valid"
      = some "true" := by
  refine ⟨rfl, rfl, ?_, ?_, ?_⟩ <;> rfl

/-- FIPS 180-4 test vector anchoring the SHA-256 embedding: the digest of
`"abc"`. -/
theorem sha256Hex_abc :
    sha256Hex "abc"
      = "ba7816bf8f01cfea414140de5dae2223b00361a396177a9cb410ff61f20015ad" := by
  decide

/-- FIPS 180-4 test vector: the digest of the empty message. -/
theorem sha256Hex_empty :
    sha256Hex ""
      = "e3b0c44298fc1c149afbf4c8996fb92427ae41e4649b934ca495991b7852b855" := by
  decide

end Enclaves
